import Mathlib

/-!
Shallow embedding of `src/web_scraper.py` (class `VacancyMailScraper`).

Python strings are modelled as lists of characters (`Str`), so that
Python's `len`, slicing and per-character operations correspond to list
operations.  The pieces of the Python standard library the scraper's
logic depends on are embedded as executable functions:

* `datetime.strptime` is embedded specialised to the six format strings
  appearing in `clean_data` (directives `%d`, `%m`, `%Y`, `%B`, `%b`,
  following the character classes CPython's `_strptime` compiles them
  to, with `datetime`'s calendar validation), and `strftime("%Y-%m-%d")`
  as zero-padded formatting;
* the two `re.search` patterns of `extract_job_details` (expiry date and
  place) are embedded as scanning matchers that follow the
  greedy/ordered-alternation behaviour of the regular expressions;
* `pandas.DataFrame` is embedded as a list of columns plus rows aligned
  with the columns (a missing value, pandas' NaN, is the `none` cell);
  an operation that would raise (e.g. `drop_duplicates` on a frame
  without the `title` column) makes the embedded function return `none`;
* a `BeautifulSoup` document is modelled by the results of the queries
  the scraper performs on it (`DetailPage`), and the `try`/`except`
  blocks are modelled by an explicit fault point (`ExcAt`) saying at
  which statement of the `try` block an exception is raised, if any.
-/

/-- A Python string: a sequence of characters. -/
abbrev Str := List Char

/-- Embed a Lean string literal as a Python string. -/
def str (s : String) : Str := s.toList

/-- Python `str.strip()`: remove whitespace from both ends. -/
def pyStrip (s : Str) : Str :=
  ((s.dropWhile Char.isWhitespace).reverse.dropWhile Char.isWhitespace).reverse

/-- Python `str.lower()` (ASCII case folding, all the scraper needs). -/
def pyLower (s : Str) : Str := s.map Char.toLower

/-- Python `s.startswith(p)`: `strStarts p s` is true iff `p` is a prefix of `s`. -/
def strStarts : Str → Str → Bool
  | [], _ => true
  | _ :: _, [] => false
  | p :: ps, c :: cs => p == c && strStarts ps cs

/-- Python `sub in s` (substring containment). -/
def strContains : Str → Str → Bool
  | s, sub =>
    if strStarts sub s then true
    else
      match s with
      | [] => false
      | _ :: rest => strContains rest sub

/-- The `"N/A"` sentinel used throughout the scraper. -/
def naStr : Str := str "N/A"

/-! ### Link discovery (`parse_job_listings`, lines 50-91)

An `<a href=...>` element of the listing page is modelled by its visible
text (`get_text()`) and its `href` attribute. -/

structure Link where
  text : Str
  href : Str
deriving DecidableEq

/-- The keyword list of line 62. -/
def keywords : List Str := [str "job", str "vacancy", str "position", str "career"]

/-- Line 61-62: keep a link whose text or href contains a keyword (lower-cased). -/
def isJobRelated (a : Link) : Bool :=
  keywords.any fun k => strContains (pyLower a.text) k || strContains (pyLower a.href) k

/-- The loop of lines 68-72: walk the job-related links keeping a link whose
trimmed title is non-empty, unseen, and does not start with `"next"`
(case-insensitively); the seen-set accumulates the kept titles. -/
def uniqueJobs : List Link → List Str → List Link
  | [], _ => []
  | l :: rest, seen =>
    let title := pyStrip l.text
    if title ≠ [] ∧ title ∉ seen ∧ strStarts (str "next") (pyLower title) = false then
      l :: uniqueJobs rest (title :: seen)
    else
      uniqueJobs rest seen

/-- Python `href.lstrip('/')`. -/
def lstripSlash (s : Str) : Str := s.dropWhile fun c => c == '/'

/-- Line 78: absolute-URL resolution. -/
def resolveUrl (base href : Str) : Str :=
  if strStarts (str "http") href then href else base ++ lstripSlash href

/-! ### Detail extraction (`extract_job_details`, lines 93-140) -/

/-- A parsed detail page, modelled by the results of the queries
`extract_job_details` performs on the soup:
`soup.find('h3')`'s text, `soup.find(class_='company')`'s text,
the `get_text(strip=True, separator=' ')` of `soup.find(class_='job-description')`
and of `soup.find(class_='content')`, and `soup.get_text()` for the whole page. -/
structure DetailPage where
  h3Text : Option Str
  companyText : Option Str
  jobDescText : Option Str
  contentText : Option Str
  fullText : Str
deriving DecidableEq

structure JobDetails where
  company : Str
  location : Str
  expiry_date : Str
  description : Str
deriving DecidableEq

/-- Lines 95-100: the detail record pre-populated with defaults. -/
def defaultDetails : JobDetails :=
  { company := naStr
    location := str "Harare, Zimbabwe"
    expiry_date := naStr
    description := naStr }

/-- Python `a or b` on two optional query results. -/
def altO {α : Type} (a b : Option α) : Option α :=
  match a with
  | some x => some x
  | none => b

/-- `[A-Za-z]` of the two regular expressions. -/
def isAsciiLetter (c : Char) : Bool := ('A' ≤ c && c ≤ 'Z') || ('a' ≤ c && c ≤ 'z')

/-- Case-insensitive literal match (the patterns are compiled with
`re.IGNORECASE`); returns the rest of the input. `lit` is stored lower-case. -/
def matchCI (lit : Str) (s : Str) : Option Str :=
  if (s.take lit.length).map Char.toLower = lit then some (s.drop lit.length) else none

/-- `\s+`: at least one whitespace character, matched greedily. -/
def skipWs1 : Str → Option Str
  | c :: r => if c.isWhitespace then some (r.dropWhile Char.isWhitespace) else none
  | [] => none

/-- `\d{n}` (exactly `n` digits): returns the digits and the rest. -/
def takeDigits (n : Nat) (s : Str) : Option (Str × Str) :=
  if (s.take n).length = n ∧ (s.take n).all Char.isDigit then
    some (s.take n, s.drop n)
  else none

/-- The slash-or-dash separator class of the expiry pattern. -/
def sepChar : Str → Option (Char × Str)
  | c :: r => if c = '/' ∨ c = '-' then some (c, r) else none
  | [] => none

/-- Rest of the numeric alternative (day, separator, month, separator,
2-to-4-digit year) after the day digits `dd`; returns the whole matched group
text and the rest.  Greedy counted repetitions try the longer digit run
first. -/
def numTail (dd : Str) (s : Str) : Option (Str × Str) :=
  match sepChar s with
  | none => none
  | some (c1, r1) =>
    match altO (takeDigits 2 r1) (takeDigits 1 r1) with
    | none => none
    | some (mm, r2) =>
      match sepChar r2 with
      | none => none
      | some (c2, r3) =>
        match altO (takeDigits 4 r3) (altO (takeDigits 3 r3) (takeDigits 2 r3)) with
        | none => none
        | some (yy, r4) => some (dd ++ c1 :: mm ++ c2 :: yy, r4)

/-- A maximal nonempty whitespace run (for `\s+` inside the captured group). -/
def wsRun : Str → Option (Str × Str)
  | c :: r =>
    if c.isWhitespace then
      some (c :: r.takeWhile Char.isWhitespace, r.dropWhile Char.isWhitespace)
    else none
  | [] => none

/-- A maximal nonempty `[A-Za-z]+` run. -/
def letterRun : Str → Option (Str × Str)
  | c :: r =>
    if isAsciiLetter c then
      some (c :: r.takeWhile isAsciiLetter, r.dropWhile isAsciiLetter)
    else none
  | [] => none

/-- Rest of the textual alternative `\d{1,2}\s+[A-Za-z]+\s+\d{2,4}` after the
day digits `dd`. -/
def txtTail (dd : Str) (s : Str) : Option (Str × Str) :=
  match wsRun s with
  | none => none
  | some (w1, r1) =>
    match letterRun r1 with
    | none => none
    | some (ls, r2) =>
      match wsRun r2 with
      | none => none
      | some (w2, r3) =>
        match altO (takeDigits 4 r3) (altO (takeDigits 3 r3) (takeDigits 2 r3)) with
        | none => none
        | some (yy, r4) => some (dd ++ w1 ++ ls ++ w2 ++ yy, r4)

/-- The capture group of the expiry pattern: the numeric alternative
(`\d{1,2}`, separator, `\d{1,2}`, separator, `\d{2,4}`) is tried before the
textual one (`\d{1,2}\s+[A-Za-z]+\s+\d{2,4}`). -/
def captureDate (s : Str) : Option Str :=
  match altO (takeDigits 2 s) (takeDigits 1 s) with
  | none => none
  | some (dd, r) =>
    match altO (numTail dd r) (txtTail dd r) with
    | none => none
    | some (cap, _) => some cap

/-- `Expiry|Closing|Deadline|Due` (matched case-insensitively). -/
def dateLabels : List Str := [str "expiry", str "closing", str "deadline", str "due"]

/-- Try the alternatives of an alternation in order. -/
def matchAnyCI (labels : List Str) (s : Str) : Option Str :=
  match labels with
  | [] => none
  | l :: rest => altO (matchCI l s) (matchAnyCI rest s)

/-- `:?\s*` followed by the capture group. -/
def expiryTail (s : Str) : Option Str :=
  let s1 := match s with
            | ':' :: r => r
            | _ => s
  captureDate (s1.dropWhile Char.isWhitespace)

/-- The `(?:\s+Date)?` branch taken (greedily) before the tail. -/
def expiryDatePath (r : Str) : Option Str :=
  match skipWs1 r with
  | none => none
  | some r1 =>
    match matchCI (str "date") r1 with
    | none => none
    | some r2 => expiryTail r2

/-- Match the full expiry pattern (line 124) anchored at the current position;
the result is the text of capture group 1. -/
def expiryAtPos (s : Str) : Option Str :=
  match matchAnyCI dateLabels s with
  | none => none
  | some r => altO (expiryDatePath r) (expiryTail r)

/-- `re.search` of the expiry pattern: first position at which it matches. -/
def searchExpiry : Str → Option Str
  | [] => none
  | c :: rest => altO (expiryAtPos (c :: rest)) (searchExpiry rest)

/-- `Location|Place|City|Town|Based in|Position in` of the location pattern
(line 131), matched case-insensitively. -/
def locLabels : List Str :=
  [str "location", str "place", str "city", str "town", str "based in", str "position in"]

/-- The character class `[A-Za-z\s,]`. -/
def isLocChar (c : Char) : Bool := isAsciiLetter c || c.isWhitespace || c == ','

/-- The terminator `(?:\.|,|\n)`. -/
def locTerm (c : Char) : Bool := c == '.' || c == ',' || c == '\n'

/-- Backtracking of the greedy `[A-Za-z\s,]+` group: walking the reversed run,
give characters back until one of them can serve as the terminator, keeping
the group (the part before it) nonempty. -/
def locBacktrack : Str → Option Str
  | [] => none
  | c :: rest => if locTerm c ∧ rest ≠ [] then some rest.reverse else locBacktrack rest

/-- `([A-Za-z\s,]+)(?:\.|,|\n)`: greedy run, then a terminator, backtracking
from the longest group. -/
def locCapture (s : Str) : Option Str :=
  let run := s.takeWhile isLocChar
  if run = [] then none
  else
    match s.dropWhile isLocChar with
    | c :: _ => if locTerm c then some run else locBacktrack run.reverse
    | [] => locBacktrack run.reverse

/-- Backtracking of the greedy `\s*` before the captured group: the run of
whitespace is consumed whole first, then given back one character at a time
(nearest first), restarting the group capture at each position, until group
and terminator match.  Given-back whitespace becomes part of the captured
group (its character class admits whitespace). -/
def locTryTails (rws tail : Str) : Option Str :=
  match locCapture tail with
  | some g => some g
  | none =>
    match rws with
    | [] => none
    | c :: rws2 => locTryTails rws2 (c :: tail)

/-- Match the full location pattern anchored at the current position
(`(?:\s*:)?\s*` then group and terminator).  The optional colon group is
tried colon-first; its inner whitespace cannot be given back (the colon
literal must still match after it), while the `\s*` before the captured
group backtracks through its whitespace run.  When the colon alternative
fails the pattern retries without it. -/
def locAtPos (s : Str) : Option Str :=
  match matchAnyCI locLabels s with
  | none => none
  | some r =>
    let skipped := locTryTails (r.takeWhile Char.isWhitespace).reverse
      (r.dropWhile Char.isWhitespace)
    match r.dropWhile Char.isWhitespace with
    | ':' :: t =>
      altO (locTryTails (t.takeWhile Char.isWhitespace).reverse
        (t.dropWhile Char.isWhitespace)) skipped
    | _ => skipped

/-- `re.search` of the location pattern. -/
def searchLoc : Str → Option Str
  | [] => none
  | c :: rest => altO (locAtPos (c :: rest)) (searchLoc rest)

/-- Lines 118-121: cap the description at 300 characters
(`description[:297] + "..."` when longer). -/
def truncateDescription (s : Str) : Str :=
  if 300 < s.length then s.take 297 ++ str "..." else s

/-- Lines 110-112: company from the first `h3`, else the first `.company`. -/
def setCompany (p : DetailPage) (d : JobDetails) : JobDetails :=
  match altO p.h3Text p.companyText with
  | some t => { d with company := pyStrip t }
  | none => d

/-- Lines 115-121: description from `.job-description`, else `.content`. -/
def setDescription (p : DetailPage) (d : JobDetails) : JobDetails :=
  match altO p.jobDescText p.contentText with
  | some t => { d with description := truncateDescription t }
  | none => d

/-- Lines 124-128: expiry date via the date pattern, stripped. -/
def setExpiry (p : DetailPage) (d : JobDetails) : JobDetails :=
  match searchExpiry p.fullText with
  | some cap => { d with expiry_date := pyStrip cap }
  | none => d

/-- Lines 131-134: location via the location pattern, stripped. -/
def setLoc (p : DetailPage) (d : JobDetails) : JobDetails :=
  match searchLoc p.fullText with
  | some cap => { d with location := pyStrip cap }
  | none => d

/-- Fault point: at which statement of the `try` block of
`extract_job_details` an exception is raised (`noExc` = none is raised).
`atParse` is an exception at/before `BeautifulSoup(...)` (line 107), before
any field of `details` has been assigned. -/
inductive ExcAt where
  | noExc
  | atParse
  | atCompany
  | atDescription
  | atExpiry
  | atLocation
deriving DecidableEq

/-- `extract_job_details` (lines 93-140).  The fetched page is `none` when
`fetch_page` returned `None` or empty content (line 104).  On an exception the
`except` handler (lines 138-140) returns the `details` dict as mutated so far:
assignments of the statements preceding the fault point are applied. -/
def extract_job_details (fetched : Option DetailPage) (exc : ExcAt) : JobDetails :=
  match fetched with
  | none => defaultDetails
  | some p =>
    match exc with
    | .atParse => defaultDetails
    | .atCompany => defaultDetails
    | .atDescription => setCompany p defaultDetails
    | .atExpiry => setDescription p (setCompany p defaultDetails)
    | .atLocation => setExpiry p (setDescription p (setCompany p defaultDetails))
    | .noExc => setLoc p (setExpiry p (setDescription p (setCompany p defaultDetails)))

/-! ### Date standardisation (`clean_data.standardize_date`, lines 154-168)

`datetime.strptime` is embedded following the regular expressions CPython's
`_strptime` compiles the six formats to: `%d` is
`3[01]|[12]\d|0[1-9]|[1-9]| [1-9]`, `%m` is `1[0-2]|0[1-9]|[1-9]`, `%Y` is
exactly four digits, `%B`/`%b` are the (case-insensitively matched) month
names, whitespace in a format matches `\s+`, the whole input must be
consumed, and the resulting numbers must form a valid calendar date
(`datetime` raises otherwise, which `strptime` surfaces as a failed parse). -/

structure Date where
  year : Nat
  month : Nat
  day : Nat
deriving DecidableEq

def digitVal (c : Char) : Nat := c.toNat - 48

/-- The `%d` directive. -/
def matchDay : Str → Option (Nat × Str)
  | c1 :: c2 :: r =>
    if c1 = '3' ∧ (c2 = '0' ∨ c2 = '1') then some (30 + digitVal c2, r)
    else if (c1 = '1' ∨ c1 = '2') ∧ c2.isDigit then some (10 * digitVal c1 + digitVal c2, r)
    else if c1 = '0' ∧ ('1' ≤ c2 ∧ c2 ≤ '9') then some (digitVal c2, r)
    else if '1' ≤ c1 ∧ c1 ≤ '9' then some (digitVal c1, c2 :: r)
    else if c1 = ' ' ∧ ('1' ≤ c2 ∧ c2 ≤ '9') then some (digitVal c2, r)
    else none
  | [c1] => if '1' ≤ c1 ∧ c1 ≤ '9' then some (digitVal c1, []) else none
  | [] => none

/-- The `%m` directive. -/
def matchMonthNum : Str → Option (Nat × Str)
  | c1 :: c2 :: r =>
    if c1 = '1' ∧ (c2 = '0' ∨ c2 = '1' ∨ c2 = '2') then some (10 + digitVal c2, r)
    else if c1 = '0' ∧ ('1' ≤ c2 ∧ c2 ≤ '9') then some (digitVal c2, r)
    else if '1' ≤ c1 ∧ c1 ≤ '9' then some (digitVal c1, c2 :: r)
    else none
  | [c1] => if '1' ≤ c1 ∧ c1 ≤ '9' then some (digitVal c1, []) else none
  | [] => none

/-- The `%Y` directive: exactly four digits. -/
def matchYear4 : Str → Option (Nat × Str)
  | a :: b :: c :: d :: r =>
    if a.isDigit ∧ b.isDigit ∧ c.isDigit ∧ d.isDigit then
      some (1000 * digitVal a + 100 * digitVal b + 10 * digitVal c + digitVal d, r)
    else none
  | _ => none

/-- A literal character of a format string. -/
def matchChar (ch : Char) : Str → Option Str
  | c :: r => if c = ch then some r else none
  | [] => none

def monthFull : List (Str × Nat) :=
  [(str "january", 1), (str "february", 2), (str "march", 3), (str "april", 4),
   (str "may", 5), (str "june", 6), (str "july", 7), (str "august", 8),
   (str "september", 9), (str "october", 10), (str "november", 11), (str "december", 12)]

def monthAbbr : List (Str × Nat) :=
  [(str "jan", 1), (str "feb", 2), (str "mar", 3), (str "apr", 4),
   (str "may", 5), (str "jun", 6), (str "jul", 7), (str "aug", 8),
   (str "sep", 9), (str "oct", 10), (str "nov", 11), (str "dec", 12)]

/-- The `%B` / `%b` directives (no month name is a prefix of another, so the
order of the alternation cannot change the outcome). -/
def matchMonthByName (tbl : List (Str × Nat)) (s : Str) : Option (Nat × Str) :=
  match tbl with
  | [] => none
  | (nm, v) :: rest =>
    match matchCI nm s with
    | some r => some (v, r)
    | none => matchMonthByName rest s

def daysInMonth (y m : Nat) : Nat :=
  if m = 2 then
    (if y % 4 = 0 ∧ (y % 100 ≠ 0 ∨ y % 400 = 0) then 29 else 28)
  else if m = 4 ∨ m = 6 ∨ m = 9 ∨ m = 11 then 30
  else 31

/-- `datetime(year, month, day)` construction succeeds. -/
def validDate (y m d : Nat) : Bool :=
  decide (1 ≤ y ∧ 1 ≤ m ∧ m ≤ 12 ∧ 1 ≤ d ∧ d ≤ daysInMonth y m)

/-- Final step of each embedded `strptime`: the whole input must be consumed
and the date must be constructible. -/
def mkDateIfValid (y m d : Nat) (rest : Str) : Option Date :=
  if rest = [] ∧ validDate y m d = true then some ⟨y, m, d⟩ else none

/-- `strptime(s, "%d-%m-%Y")` and `strptime(s, "%d/%m/%Y")` (the separator
is `'-'` or `'/'`). -/
def strptimeDMYsep (sep : Char) (s : Str) : Option Date :=
  match matchDay s with
  | none => none
  | some (d, r1) =>
    match matchChar sep r1 with
    | none => none
    | some r2 =>
      match matchMonthNum r2 with
      | none => none
      | some (m, r3) =>
        match matchChar sep r3 with
        | none => none
        | some r4 =>
          match matchYear4 r4 with
          | none => none
          | some (y, r5) => mkDateIfValid y m d r5

/-- `strptime(s, "%Y-%m-%d")`. -/
def strptimeYMDdash (s : Str) : Option Date :=
  match matchYear4 s with
  | none => none
  | some (y, r1) =>
    match matchChar '-' r1 with
    | none => none
    | some r2 =>
      match matchMonthNum r2 with
      | none => none
      | some (m, r3) =>
        match matchChar '-' r3 with
        | none => none
        | some r4 =>
          match matchDay r4 with
          | none => none
          | some (d, r5) => mkDateIfValid y m d r5

/-- `strptime(s, "%B %d, %Y")`. -/
def strptimeMonDY (s : Str) : Option Date :=
  match matchMonthByName monthFull s with
  | none => none
  | some (m, r1) =>
    match skipWs1 r1 with
    | none => none
    | some r2 =>
      match matchDay r2 with
      | none => none
      | some (d, r3) =>
        match matchChar ',' r3 with
        | none => none
        | some r4 =>
          match skipWs1 r4 with
          | none => none
          | some r5 =>
            match matchYear4 r5 with
            | none => none
            | some (y, r6) => mkDateIfValid y m d r6

/-- `strptime(s, "%d %B %Y")` and `strptime(s, "%d %b %Y")` (the month-name
table is `%B`'s or `%b`'s). -/
def strptimeDMonY (tbl : List (Str × Nat)) (s : Str) : Option Date :=
  match matchDay s with
  | none => none
  | some (d, r1) =>
    match skipWs1 r1 with
    | none => none
    | some r2 =>
      match matchMonthByName tbl r2 with
      | none => none
      | some (m, r3) =>
        match skipWs1 r3 with
        | none => none
        | some r4 =>
          match matchYear4 r4 with
          | none => none
          | some (y, r5) => mkDateIfValid y m d r5

/-- The `for fmt in date_formats` loop (lines 159-165): first format that
parses wins. -/
def tryFormats (s : Str) : Option Date :=
  altO (strptimeDMYsep '-' s)
    (altO (strptimeDMYsep '/' s)
      (altO (strptimeYMDdash s)
        (altO (strptimeMonDY s)
          (altO (strptimeDMonY monthFull s) (strptimeDMonY monthAbbr s)))))

def digitChar (n : Nat) : Char := Char.ofNat (48 + n)

def pad2 (n : Nat) : Str := [digitChar (n / 10), digitChar (n % 10)]

def pad4 (n : Nat) : Str :=
  [digitChar (n / 1000), digitChar (n / 100 % 10), digitChar (n / 10 % 10), digitChar (n % 10)]

/-- `date_obj.strftime("%Y-%m-%d")` (zero-padded fields). -/
def formatYMD (d : Date) : Str := pad4 d.year ++ '-' :: (pad2 d.month ++ '-' :: pad2 d.day)

/-- `standardize_date` (lines 154-168). -/
def standardize_date (date_str : Str) : Str :=
  if date_str = naStr then date_str
  else
    match tryFormats date_str with
    | some d => formatYMD d
    | none => date_str

/-! ### The normaliser (`clean_data`, lines 142-184) -/

/-- A cell of the frame; `none` is pandas' NaN. -/
abbrev Cell := Option Str

/-- A scraped record: a Python dict, keys in insertion order. -/
abbrev JobRec := List (String × Cell)

structure DataFrame where
  columns : List String
  rows : List (List Cell)
deriving DecidableEq

/-- Dict lookup while building the frame (a missing key gives a NaN cell). -/
def lookupKey (r : JobRec) (k : String) : Cell :=
  match r with
  | [] => none
  | (k2, v) :: rest => if k2 = k then v else lookupKey rest k

def allKeys : List JobRec → List String
  | [] => []
  | r :: rs => r.map Prod.fst ++ allKeys rs

/-- Keep the first occurrence of each key (`keep='first'` / first-appearance
column order), accumulating the keys already seen. -/
def keepFirsts {α β : Type} [DecidableEq β] (f : α → β) : List α → List β → List α
  | [], _ => []
  | a :: rest, seen =>
    if f a ∈ seen then keepFirsts f rest seen
    else a :: keepFirsts f rest (f a :: seen)

/-- `pd.DataFrame(list_of_dicts)`: columns are the keys in order of first
appearance. -/
def recordColumns (recs : List JobRec) : List String := keepFirsts id (allKeys recs) []

def mkDataFrame (recs : List JobRec) : DataFrame :=
  { columns := recordColumns recs
    rows := recs.map fun r => (recordColumns recs).map (lookupKey r) }

/-- The cell of `row` under column `k` (rows are aligned with the columns). -/
def rowCell : List String → List Cell → String → Cell
  | c :: cs, v :: vs, k => if c = k then v else rowCell cs vs k
  | _, _, _ => none

def titleCell (cols : List String) (row : List Cell) : Cell := rowCell cols row "title"

/-- `df[k] = df[k].apply(f)`: rewrite the cells of one existing column. -/
def setColCells (cols : List String) (k : String) (f : Cell → Cell) (row : List Cell) :
    List Cell :=
  List.zipWith (fun c v => if c = k then f v else v) cols row

def applyColumn (df : DataFrame) (k : String) (f : Cell → Cell) : DataFrame :=
  { columns := df.columns, rows := df.rows.map (setColCells df.columns k f) }

/-- `df[k] = v`: overwrite the column if present, else append it. -/
def assignColumn (df : DataFrame) (k : String) (v : Cell) : DataFrame :=
  if k ∈ df.columns then applyColumn df k (fun _ => v)
  else { columns := df.columns ++ [k], rows := df.rows.map (· ++ [v]) }

def canonicalCols : List String :=
  ["title", "url", "company", "location", "expiry_date", "description", "scraped_at"]

/-- Lines 176-179: insert `"N/A"` for a canonical column that is absent. -/
def fillMissing (df : DataFrame) : DataFrame :=
  canonicalCols.foldl
    (fun d c => if c ∈ d.columns then d else assignColumn d c (some naStr)) df

/-- Line 182: `df = df[expected_columns]`. -/
def projectCols (df : DataFrame) (cols : List String) : DataFrame :=
  { columns := cols, rows := df.rows.map fun row => cols.map (rowCell df.columns row) }

/-- `standardize_date` applied by `.apply` to a cell; a NaN cell passes
through (the `TypeError` it raises is swallowed by the outer handler of
`standardize_date`, which returns the input). -/
def cleanCell (c : Cell) : Cell := c.map standardize_date

/-- `clean_data` (lines 142-184).  `now` is `datetime.now().strftime(...)`.
The result is `none` when the pandas calls raise: `drop_duplicates` on a
frame without a `title` column, or indexing a missing `expiry_date` column. -/
def clean_data (now : Str) (job_listings : List JobRec) : Option DataFrame :=
  if job_listings = [] then some { columns := [], rows := [] }
  else
    let df0 := mkDataFrame job_listings
    if "title" ∈ df0.columns then
      let df1 : DataFrame :=
        { columns := df0.columns, rows := keepFirsts (titleCell df0.columns) df0.rows [] }
      if "expiry_date" ∈ df1.columns then
        let df2 := applyColumn df1 "expiry_date" cleanCell
        let df3 := assignColumn df2 "scraped_at" (some now)
        some (projectCols (fillMissing df3) canonicalCols)
      else none
    else none

/-- `df.to_dict('records')`-style view of a frame, used to feed the
normaliser its own output. -/
def DataFrame.toRecords (df : DataFrame) : List JobRec :=
  df.rows.map fun row => df.columns.zip row

/-! ### Orchestration (`parse_job_listings` record building, `save_to_csv`,
`run`; lines 75-91, 186-230) -/

/-- Lines 76-82: the record built for one selected link (title, resolved
URL, then the detail fields merged in by `dict.update`, in the insertion
order of the `details` dict). -/
def jobRecord (base : Str) (detailEnv : Str → Option DetailPage) (excOf : Str → ExcAt)
    (l : Link) : JobRec :=
  let title := pyStrip l.text
  let url := resolveUrl base l.href
  let d := extract_job_details (detailEnv url) (excOf url)
  [("title", some title), ("url", some url), ("company", some d.company),
   ("location", some d.location), ("expiry_date", some d.expiry_date),
   ("description", some d.description)]

/-- `parse_job_listings` (lines 50-91): keyword filter, dedupe by trimmed
title, first 10, one record per selected link.  `detailEnv` gives the fetched
detail page per URL and `excOf` the fault point of its extraction. -/
def parse_job_listings (base : Str) (links : List Link)
    (detailEnv : Str → Option DetailPage) (excOf : Str → ExcAt) : List JobRec :=
  ((uniqueJobs (links.filter isJobRelated) []).take 10).map (jobRecord base detailEnv excOf)

/-- `save_to_csv` (lines 186-200): an empty frame is not written
(returns `False`); otherwise the frame is written and `True` returned.
The second component lists the frames written to the output file. -/
def save_to_csv (df : DataFrame) : Bool × List DataFrame :=
  if df.rows = [] then (false, []) else (true, [df])

/-- `run` (lines 202-230): fetch the listing (`none` = fetch failure),
discover, clean, save.  Returns the boolean result and the frames written. -/
def run (listing : Option (List Link)) (base now : Str)
    (detailEnv : Str → Option DetailPage) (excOf : Str → ExcAt) : Bool × List DataFrame :=
  match listing with
  | none => (false, [])
  | some links =>
    let jobs := parse_job_listings base links detailEnv excOf
    if jobs = [] then (false, [])
    else
      match clean_data now jobs with
      | none => (false, [])
      | some df => save_to_csv df

/-! ### Specification predicates and auxiliary definitions used by the
theorems -/

/-- Shape of a capture of the numeric alternative of the expiry pattern:
1-2 digit day, separator, 1-2 digit month, separator, 2-to-4-digit year. -/
def numericShape (cap : Str) : Prop :=
  ∃ dd c1 mm c2 yy,
    cap = dd ++ c1 :: (mm ++ c2 :: yy) ∧
    (1 ≤ dd.length ∧ dd.length ≤ 2 ∧ ∀ c ∈ dd, c.isDigit = true) ∧
    (c1 = '/' ∨ c1 = '-') ∧
    (1 ≤ mm.length ∧ mm.length ≤ 2 ∧ ∀ c ∈ mm, c.isDigit = true) ∧
    (c2 = '/' ∨ c2 = '-') ∧
    (2 ≤ yy.length ∧ yy.length ≤ 4 ∧ ∀ c ∈ yy, c.isDigit = true)

/-- Shape of a capture of the textual alternative of the expiry pattern:
1-2 digit day, whitespace, a word of letters, whitespace, 2-to-4-digit
year. -/
def textualShape (cap : Str) : Prop :=
  ∃ dd w1 ls w2 yy,
    cap = dd ++ w1 ++ ls ++ w2 ++ yy ∧
    (1 ≤ dd.length ∧ dd.length ≤ 2 ∧ ∀ c ∈ dd, c.isDigit = true) ∧
    (w1 ≠ [] ∧ ∀ c ∈ w1, c.isWhitespace = true) ∧
    (ls ≠ [] ∧ ∀ c ∈ ls, isAsciiLetter c = true) ∧
    (w2 ≠ [] ∧ ∀ c ∈ w2, c.isWhitespace = true) ∧
    (2 ≤ yy.length ∧ yy.length ≤ 4 ∧ ∀ c ∈ yy, c.isDigit = true)

/-- The columns `fillMissing` appends to a frame that already has columns
`have` while walking `cs`. -/
def newCols : List String → List String → List String
  | [], _ => []
  | c :: cs, hv => if c ∈ hv then newCols cs hv else c :: newCols cs (hv ++ [c])

/-- The cell the normaliser puts under the canonical column `c` for a
(deduplicated) input row `row` aligned with the input columns `cols0`. -/
def finalCell (now : Str) (cols0 : List String) (row : List Cell) (c : String) : Cell :=
  if c = "scraped_at" then some now
  else if c = "expiry_date" then cleanCell (rowCell cols0 row c)
  else if c ∈ cols0 then rowCell cols0 row c
  else some naStr

/-! Concrete inputs used by the witnesses. -/

def detailNone : Str → Option DetailPage := fun _ => none

def excNone : Str → ExcAt := fun _ => ExcAt.noExc

def wLinks : List Link :=
  [⟨str "  Engineer Job ", str "/job/1"⟩,
   ⟨str "Next page", str "/jobs/page2"⟩,
   ⟨str "Engineer Job", str "/job/1b"⟩,
   ⟨str "", str "/job/empty"⟩,
   ⟨str "Vacancy: Cook", str "http://x/2"⟩]

def wBase : Str := str "https://vacancymail.co.zw/jobs/"

def wRecs : List JobRec :=
  [[("title", some (str "Engineer")), ("expiry_date", some (str "31/01/2025"))]]

def wDF1 : DataFrame :=
  { columns := canonicalCols
    rows := [[some (str "Engineer"), some naStr, some naStr, some naStr,
      some (str "2025-01-31"), some naStr, some (str "T1")]] }

/-! ## Lemmas about the link discoverer -/

theorem uniqueJobs_mem_props {xs : List Link} {seen : List Str} {l : Link}
    (h : l ∈ uniqueJobs xs seen) :
    pyStrip l.text ≠ [] ∧ strStarts (str "next") (pyLower (pyStrip l.text)) = false ∧
      pyStrip l.text ∉ seen := by
  induction xs generalizing seen with
  | nil => simp [uniqueJobs] at h
  | cons x rest ih =>
    simp only [uniqueJobs] at h
    split at h
    · rename_i hc
      rcases List.mem_cons.mp h with rfl | hm
      · exact ⟨hc.1, hc.2.2, hc.2.1⟩
      · obtain ⟨h1, h2, h3⟩ := ih hm
        exact ⟨h1, h2, fun hs => h3 (List.mem_cons_of_mem _ hs)⟩
    · exact ih h

theorem uniqueJobs_sublist (xs : List Link) (seen : List Str) :
    (uniqueJobs xs seen).Sublist xs := by
  induction xs generalizing seen with
  | nil => simp [uniqueJobs]
  | cons x rest ih =>
    simp only [uniqueJobs]
    split
    · exact List.Sublist.cons₂ x (ih _)
    · exact List.Sublist.cons x (ih _)

theorem uniqueJobs_titles_nodup (xs : List Link) (seen : List Str) :
    ((uniqueJobs xs seen).map fun l => pyStrip l.text).Nodup := by
  induction xs generalizing seen with
  | nil => simp [uniqueJobs]
  | cons x rest ih =>
    simp only [uniqueJobs]
    split
    · simp only [List.map_cons, List.nodup_cons]
      refine ⟨fun hmem => ?_, ih _⟩
      obtain ⟨l, hl, hEq⟩ := List.mem_map.mp hmem
      have hns := (uniqueJobs_mem_props hl).2.2
      exact hns (by rw [hEq]; exact List.mem_cons_self _ _)
    · exact ih _

theorem uniqueJobs_find_first {xs : List Link} {seen : List Str} {l : Link}
    (h : l ∈ uniqueJobs xs seen) :
    xs.find? (fun l2 => pyStrip l2.text == pyStrip l.text) = some l := by
  induction xs generalizing seen with
  | nil => simp [uniqueJobs] at h
  | cons x rest ih =>
    have hsplit := h
    simp only [uniqueJobs] at hsplit
    split at hsplit
    · rename_i hc
      rcases List.mem_cons.mp hsplit with rfl | hm
      · simp [List.find?]
      · have hprops := uniqueJobs_mem_props hm
        have hne : ¬(pyStrip x.text == pyStrip l.text) = true := by
          simp only [beq_iff_eq]
          intro hEq
          exact hprops.2.2 (by rw [← hEq]; exact List.mem_cons_self _ _)
        rw [@List.find?_cons_of_neg _ (fun l2 => pyStrip l2.text == pyStrip l.text) x rest hne]
        exact ih hm
    · rename_i hc
      have hprops := uniqueJobs_mem_props hsplit
      have hne : ¬(pyStrip x.text == pyStrip l.text) = true := by
        simp only [beq_iff_eq]
        intro hEq
        refine hc ?_
        rw [hEq]
        exact ⟨hprops.1, hprops.2.2, hprops.2.1⟩
      rw [@List.find?_cons_of_neg _ (fun l2 => pyStrip l2.text == pyStrip l.text) x rest hne]
      exact ih hsplit

/-! ## Field-preservation lemmas for the detail extractor -/

theorem setCompany_location (p : DetailPage) (d : JobDetails) :
    (setCompany p d).location = d.location := by
  unfold setCompany; split <;> rfl

theorem setCompany_expiry (p : DetailPage) (d : JobDetails) :
    (setCompany p d).expiry_date = d.expiry_date := by
  unfold setCompany; split <;> rfl

theorem setCompany_description (p : DetailPage) (d : JobDetails) :
    (setCompany p d).description = d.description := by
  unfold setCompany; split <;> rfl

theorem setDescription_company (p : DetailPage) (d : JobDetails) :
    (setDescription p d).company = d.company := by
  unfold setDescription; split <;> rfl

theorem setDescription_location (p : DetailPage) (d : JobDetails) :
    (setDescription p d).location = d.location := by
  unfold setDescription; split <;> rfl

theorem setDescription_expiry (p : DetailPage) (d : JobDetails) :
    (setDescription p d).expiry_date = d.expiry_date := by
  unfold setDescription; split <;> rfl

theorem setExpiry_company (p : DetailPage) (d : JobDetails) :
    (setExpiry p d).company = d.company := by
  unfold setExpiry; split <;> rfl

theorem setExpiry_location (p : DetailPage) (d : JobDetails) :
    (setExpiry p d).location = d.location := by
  unfold setExpiry; split <;> rfl

theorem setExpiry_description (p : DetailPage) (d : JobDetails) :
    (setExpiry p d).description = d.description := by
  unfold setExpiry; split <;> rfl

theorem setLoc_company (p : DetailPage) (d : JobDetails) :
    (setLoc p d).company = d.company := by
  unfold setLoc; split <;> rfl

theorem setLoc_expiry (p : DetailPage) (d : JobDetails) :
    (setLoc p d).expiry_date = d.expiry_date := by
  unfold setLoc; split <;> rfl

theorem setLoc_description (p : DetailPage) (d : JobDetails) :
    (setLoc p d).description = d.description := by
  unfold setLoc; split <;> rfl

/-- C1: for every listing-page content, `parse_job_listings` returns at most
10 records; the (trimmed) titles of the records are pairwise distinct; the
selected links are an order-preserving subsequence of the job-related links;
and every returned record is built from the first job-related link carrying
its trimmed title (so of several links sharing a title only the first
survives, and its URL is the one retained). -/
theorem parse_job_listings_bounded_unique
    (base : Str) (links : List Link) (dE : Str → Option DetailPage) (eO : Str → ExcAt) :
    (parse_job_listings base links dE eO).length ≤ 10 ∧
    ((parse_job_listings base links dE eO).map fun r => lookupKey r "title").Nodup ∧
    ((uniqueJobs (links.filter isJobRelated) []).take 10).Sublist (links.filter isJobRelated) ∧
    ∀ r ∈ parse_job_listings base links dE eO,
      ∃ l, r = jobRecord base dE eO l ∧
        (links.filter isJobRelated).find? (fun l2 => pyStrip l2.text == pyStrip l.text) =
          some l := by
  refine ⟨?_, ?_, ?_, ?_⟩
  · simp only [parse_job_listings, List.length_map]
    exact List.length_take_le 10 _
  · have hmap : ((parse_job_listings base links dE eO).map fun r => lookupKey r "title") =
        ((uniqueJobs (links.filter isJobRelated) []).take 10).map
          fun l => some (pyStrip l.text) := by
      simp only [parse_job_listings, List.map_map]
      exact List.map_congr_left fun l _ => rfl
    rw [hmap]
    have h1 : (((uniqueJobs (links.filter isJobRelated) []).take 10).map
        fun l => pyStrip l.text).Nodup := by
      refine List.Nodup.sublist (List.Sublist.map _ (List.take_sublist _ _)) ?_
      exact uniqueJobs_titles_nodup _ _
    have h2 := h1.map (Option.some_injective Str)
    simpa [List.map_map] using h2
  · exact (List.take_sublist _ _).trans (uniqueJobs_sublist _ _)
  · intro r hr
    simp only [parse_job_listings, List.mem_map] at hr
    obtain ⟨l, hl, rfl⟩ := hr
    exact ⟨l, rfl, uniqueJobs_find_first (List.mem_of_mem_take hl)⟩

theorem parse_job_listings_bounded_unique_witness :
    ∃ l, jobRecord wBase detailNone excNone ⟨str "  Engineer Job ", str "/job/1"⟩ =
        jobRecord wBase detailNone excNone l ∧
      (wLinks.filter isJobRelated).find? (fun l2 =>
        pyStrip l2.text == pyStrip l.text) = some l :=
  (parse_job_listings_bounded_unique wBase wLinks detailNone excNone).2.2.2
    (jobRecord wBase detailNone excNone ⟨str "  Engineer Job ", str "/job/1"⟩) (by decide)

/-- C2: every record returned by the link discoverer has a non-empty trimmed
title that does not start (case-insensitively) with `"next"`; consequently a
link whose trimmed text is empty or starts with `"next"` (any case) never
contributes a record. -/
theorem parse_job_listings_excludes_next
    (base : Str) (links : List Link) (dE : Str → Option DetailPage) (eO : Str → ExcAt) :
    (∀ r ∈ parse_job_listings base links dE eO,
      ∃ t : Str, lookupKey r "title" = some t ∧ t ≠ [] ∧
        strStarts (str "next") (pyLower t) = false) ∧
    (∀ l ∈ links,
      (pyStrip l.text = [] ∨ strStarts (str "next") (pyLower (pyStrip l.text)) = true) →
      ∀ r ∈ parse_job_listings base links dE eO,
        lookupKey r "title" ≠ some (pyStrip l.text)) := by
  have main : ∀ r ∈ parse_job_listings base links dE eO,
      ∃ t : Str, lookupKey r "title" = some t ∧ t ≠ [] ∧
        strStarts (str "next") (pyLower t) = false := by
    intro r hr
    simp only [parse_job_listings, List.mem_map] at hr
    obtain ⟨l, hl, rfl⟩ := hr
    have hprops := uniqueJobs_mem_props (List.mem_of_mem_take hl)
    exact ⟨pyStrip l.text, rfl, hprops.1, hprops.2.1⟩
  refine ⟨main, ?_⟩
  intro l _ hbad r hr hEq
  obtain ⟨t, ht, htne, htnext⟩ := main r hr
  rw [ht] at hEq
  obtain rfl : t = pyStrip l.text := Option.some_injective _ hEq
  rcases hbad with hbad | hbad
  · exact htne hbad
  · rw [hbad] at htnext
    cases htnext

theorem parse_job_listings_excludes_next_witness :
    ∃ t : Str,
      lookupKey (jobRecord wBase detailNone excNone ⟨str "  Engineer Job ", str "/job/1"⟩)
          "title" = some t ∧
        t ≠ [] ∧ strStarts (str "next") (pyLower t) = false :=
  (parse_job_listings_excludes_next wBase wLinks detailNone excNone).1
    (jobRecord wBase detailNone excNone ⟨str "  Engineer Job ", str "/job/1"⟩) (by decide)

/-- C4: the detail extractor caps the description at 300 characters: a text
longer than 300 characters is stored as its first 297 characters followed by
`"..."` (total length exactly 300, ending in `"..."`), a text of at most 300
characters is stored unchanged, and the stored description of a page whose
`job-description` element has text `s` is exactly `truncateDescription s`. -/
theorem description_truncation_cap :
    (∀ s : Str, 300 < s.length →
      truncateDescription s = s.take 297 ++ str "..." ∧
      (truncateDescription s).length = 300 ∧
      (truncateDescription s).drop 297 = str "...") ∧
    (∀ s : Str, s.length ≤ 300 → truncateDescription s = s) ∧
    (∀ (p : DetailPage) (s : Str), p.jobDescText = some s →
      (extract_job_details (some p) ExcAt.noExc).description = truncateDescription s) := by
  refine ⟨?_, ?_, ?_⟩
  · intro s hs
    have heq : truncateDescription s = s.take 297 ++ str "..." := by
      simp [truncateDescription, hs]
    have hlen : (s.take 297).length = 297 := by
      rw [List.length_take]; omega
    refine ⟨heq, ?_, ?_⟩
    · rw [heq, List.length_append, hlen]; rfl
    · have hdrop := List.drop_left (s.take 297) (str "...")
      rw [hlen] at hdrop
      rw [heq, hdrop]
  · intro s hs
    simp [truncateDescription]
    omega
  · intro p s hp
    show (setLoc p (setExpiry p (setDescription p (setCompany p defaultDetails)))).description
        = truncateDescription s
    rw [setLoc_description, setExpiry_description]
    unfold setDescription
    rw [hp]
    rfl

theorem description_truncation_cap_witness :
    truncateDescription (List.replicate 350 'a') =
        (List.replicate 350 'a').take 297 ++ str "..." ∧
      (truncateDescription (List.replicate 350 'a')).length = 300 ∧
      (truncateDescription (List.replicate 350 'a')).drop 297 = str "..." :=
  description_truncation_cap.1 (List.replicate 350 'a')
    (by rw [List.length_replicate]; norm_num)

/-- C9: when the listing-page fetch fails (`none`) or the link discoverer
returns no records, `run` returns failure and writes nothing to the output
file (the list of frames written is empty, so prior output is untouched). -/
theorem run_failure_no_write :
    (∀ (base now : Str) (dE : Str → Option DetailPage) (eO : Str → ExcAt),
      run none base now dE eO = (false, [])) ∧
    (∀ (base now : Str) (links : List Link) (dE : Str → Option DetailPage)
      (eO : Str → ExcAt), parse_job_listings base links dE eO = [] →
      run (some links) base now dE eO = (false, [])) := by
  refine ⟨fun _ _ _ _ => rfl, ?_⟩
  intro base now links dE eO h
  simp [run, h]

theorem run_failure_no_write_witness :
    run (some []) wBase (str "2025-04-10 09:00:00") detailNone excNone = (false, []) :=
  run_failure_no_write.2 wBase (str "2025-04-10 09:00:00") [] detailNone excNone rfl

/-! ## C3: behaviour of the detail extractor under failures -/

/-- C3 counterexample: an exception raised after the company field has been
assigned (here: while searching for the expiry date) does not yield the
fully-defaulted record — the `except` handler returns the partially-updated
`details` dict, so the extracted company survives. -/
theorem extract_midparse_keeps_company :
    extract_job_details (some ⟨some (str "Acme Corp"), none, none, none, str ""⟩)
        ExcAt.atExpiry ≠ defaultDetails ∧
      (extract_job_details (some ⟨some (str "Acme Corp"), none, none, none, str ""⟩)
        ExcAt.atExpiry).company = str "Acme Corp" := by
  constructor <;> decide

/-- C3 (amended): the extractor never raises; with no fetched content it
returns exactly the fully-defaulted record without attempting extraction; an
exception before any field assignment (at parse time or while computing the
company) also yields the fully-defaulted record; an exception at a later
statement keeps the values assigned by the earlier statements and leaves the
remaining fields at their defaults. -/
theorem extract_job_details_exception_defaults :
    (∀ exc : ExcAt, extract_job_details none exc = defaultDetails) ∧
    (∀ p : DetailPage, extract_job_details (some p) ExcAt.atParse = defaultDetails ∧
      extract_job_details (some p) ExcAt.atCompany = defaultDetails) ∧
    (∀ p : DetailPage,
      (extract_job_details (some p) ExcAt.atDescription).company =
          (extract_job_details (some p) ExcAt.noExc).company ∧
        (extract_job_details (some p) ExcAt.atDescription).description = naStr ∧
        (extract_job_details (some p) ExcAt.atDescription).expiry_date = naStr ∧
        (extract_job_details (some p) ExcAt.atDescription).location =
          str "Harare, Zimbabwe") ∧
    (∀ p : DetailPage,
      (extract_job_details (some p) ExcAt.atExpiry).company =
          (extract_job_details (some p) ExcAt.noExc).company ∧
        (extract_job_details (some p) ExcAt.atExpiry).description =
          (extract_job_details (some p) ExcAt.noExc).description ∧
        (extract_job_details (some p) ExcAt.atExpiry).expiry_date = naStr ∧
        (extract_job_details (some p) ExcAt.atExpiry).location = str "Harare, Zimbabwe") ∧
    (∀ p : DetailPage,
      (extract_job_details (some p) ExcAt.atLocation).company =
          (extract_job_details (some p) ExcAt.noExc).company ∧
        (extract_job_details (some p) ExcAt.atLocation).description =
          (extract_job_details (some p) ExcAt.noExc).description ∧
        (extract_job_details (some p) ExcAt.atLocation).expiry_date =
          (extract_job_details (some p) ExcAt.noExc).expiry_date ∧
        (extract_job_details (some p) ExcAt.atLocation).location =
          str "Harare, Zimbabwe") := by
  refine ⟨fun _ => rfl, fun p => ⟨rfl, rfl⟩, fun p => ⟨?_, ?_, ?_, ?_⟩,
    fun p => ⟨?_, ?_, ?_, ?_⟩, fun p => ⟨?_, ?_, ?_, ?_⟩⟩
  · show (setCompany p defaultDetails).company = _
    rw [show (extract_job_details (some p) ExcAt.noExc).company =
        (setCompany p defaultDetails).company by
      show (setLoc p (setExpiry p (setDescription p (setCompany p defaultDetails)))).company = _
      rw [setLoc_company, setExpiry_company, setDescription_company]]
  · show (setCompany p defaultDetails).description = naStr
    rw [setCompany_description]
    rfl
  · show (setCompany p defaultDetails).expiry_date = naStr
    rw [setCompany_expiry]
    rfl
  · show (setCompany p defaultDetails).location = _
    rw [setCompany_location]
    rfl
  · show (setDescription p (setCompany p defaultDetails)).company = _
    rw [setDescription_company,
      show (extract_job_details (some p) ExcAt.noExc).company =
        (setCompany p defaultDetails).company by
      show (setLoc p (setExpiry p (setDescription p (setCompany p defaultDetails)))).company = _
      rw [setLoc_company, setExpiry_company, setDescription_company]]
  · show (setDescription p (setCompany p defaultDetails)).description = _
    rw [show (extract_job_details (some p) ExcAt.noExc).description =
        (setDescription p (setCompany p defaultDetails)).description by
      show (setLoc p (setExpiry p (setDescription p (setCompany p
        defaultDetails)))).description = _
      rw [setLoc_description, setExpiry_description]]
  · show (setDescription p (setCompany p defaultDetails)).expiry_date = naStr
    rw [setDescription_expiry, setCompany_expiry]
    rfl
  · show (setDescription p (setCompany p defaultDetails)).location = _
    rw [setDescription_location, setCompany_location]
    rfl
  · show (setExpiry p (setDescription p (setCompany p defaultDetails))).company = _
    rw [setExpiry_company, setDescription_company,
      show (extract_job_details (some p) ExcAt.noExc).company =
        (setCompany p defaultDetails).company by
      show (setLoc p (setExpiry p (setDescription p (setCompany p defaultDetails)))).company = _
      rw [setLoc_company, setExpiry_company, setDescription_company]]
  · show (setExpiry p (setDescription p (setCompany p defaultDetails))).description = _
    rw [setExpiry_description,
      show (extract_job_details (some p) ExcAt.noExc).description =
        (setDescription p (setCompany p defaultDetails)).description by
      show (setLoc p (setExpiry p (setDescription p (setCompany p
        defaultDetails)))).description = _
      rw [setLoc_description, setExpiry_description]]
  · show (setExpiry p (setDescription p (setCompany p defaultDetails))).expiry_date = _
    rw [show (extract_job_details (some p) ExcAt.noExc).expiry_date =
        (setExpiry p (setDescription p (setCompany p defaultDetails))).expiry_date by
      show (setLoc p (setExpiry p (setDescription p (setCompany p
        defaultDetails)))).expiry_date = _
      rw [setLoc_expiry]]
  · show (setExpiry p (setDescription p (setCompany p defaultDetails))).location = _
    rw [setExpiry_location, setDescription_location, setCompany_location]
    rfl


/-! ## C5: shape of expiry-date captures -/

theorem altO_eq_some {α : Type} {a b : Option α} {x : α} (h : altO a b = some x) :
    a = some x ∨ (a = none ∧ b = some x) := by
  cases a with
  | some y => left; simpa [altO] using h
  | none => right; exact ⟨rfl, by simpa [altO] using h⟩

theorem takeDigits_spec {n : Nat} {s p r : Str} (h : takeDigits n s = some (p, r)) :
    p.length = n ∧ (∀ c ∈ p, c.isDigit = true) ∧ s = p ++ r := by
  unfold takeDigits at h
  split at h
  · rename_i hc
    simp only [Option.some.injEq, Prod.mk.injEq] at h
    obtain ⟨rfl, rfl⟩ := h
    exact ⟨hc.1, List.all_eq_true.mp hc.2, (List.take_append_drop n s).symm⟩
  · simp at h

theorem sepChar_spec {s : Str} {c : Char} {r : Str} (h : sepChar s = some (c, r)) :
    (c = '/' ∨ c = '-') ∧ s = c :: r := by
  cases s with
  | nil => simp [sepChar] at h
  | cons c0 r0 =>
    simp only [sepChar] at h
    split at h
    · rename_i hc
      simp only [Option.some.injEq, Prod.mk.injEq] at h
      obtain ⟨rfl, rfl⟩ := h
      exact ⟨hc, rfl⟩
    · simp at h

theorem digits12_spec {r1 mm r2 : Str}
    (h : altO (takeDigits 2 r1) (takeDigits 1 r1) = some (mm, r2)) :
    1 ≤ mm.length ∧ mm.length ≤ 2 ∧ ∀ c ∈ mm, c.isDigit = true := by
  rcases altO_eq_some h with h2 | ⟨_, h1⟩
  · obtain ⟨hl, hd, _⟩ := takeDigits_spec h2
    exact ⟨by omega, by omega, hd⟩
  · obtain ⟨hl, hd, _⟩ := takeDigits_spec h1
    exact ⟨by omega, by omega, hd⟩

theorem digits14_spec {r3 yy r4 : Str}
    (h : altO (takeDigits 4 r3) (altO (takeDigits 3 r3) (takeDigits 2 r3)) = some (yy, r4)) :
    2 ≤ yy.length ∧ yy.length ≤ 4 ∧ ∀ c ∈ yy, c.isDigit = true := by
  rcases altO_eq_some h with h4 | ⟨_, h32⟩
  · obtain ⟨hl, hd, _⟩ := takeDigits_spec h4
    exact ⟨by omega, by omega, hd⟩
  · rcases altO_eq_some h32 with h3 | ⟨_, h2⟩
    · obtain ⟨hl, hd, _⟩ := takeDigits_spec h3
      exact ⟨by omega, by omega, hd⟩
    · obtain ⟨hl, hd, _⟩ := takeDigits_spec h2
      exact ⟨by omega, by omega, hd⟩

theorem numTail_shape {dd s cap rest : Str}
    (hdd : 1 ≤ dd.length ∧ dd.length ≤ 2 ∧ ∀ c ∈ dd, c.isDigit = true)
    (h : numTail dd s = some (cap, rest)) : numericShape cap := by
  unfold numTail at h
  split at h
  · simp at h
  · rename_i c1 r1 hsep1
    split at h
    · simp at h
    · rename_i mm r2 hmm
      split at h
      · simp at h
      · rename_i c2 r3 hsep2
        split at h
        · simp at h
        · rename_i yy r4 hyy
          simp only [Option.some.injEq, Prod.mk.injEq] at h
          obtain ⟨rfl, rfl⟩ := h
          exact ⟨dd, c1, mm, c2, yy, by simp, hdd, (sepChar_spec hsep1).1,
            digits12_spec hmm, (sepChar_spec hsep2).1, digits14_spec hyy⟩

theorem wsRun_spec {s w r : Str} (h : wsRun s = some (w, r)) :
    w ≠ [] ∧ (∀ c ∈ w, c.isWhitespace = true) ∧ s = w ++ r := by
  cases s with
  | nil => simp [wsRun] at h
  | cons c0 r0 =>
    simp only [wsRun] at h
    split at h
    · rename_i hc
      simp only [Option.some.injEq, Prod.mk.injEq] at h
      obtain ⟨rfl, rfl⟩ := h
      refine ⟨by simp, ?_, ?_⟩
      · intro c hm
        rcases List.mem_cons.mp hm with rfl | hm
        · exact hc
        · exact List.mem_takeWhile_imp hm
      · simp [List.takeWhile_append_dropWhile]
    · simp at h

theorem letterRun_spec {s w r : Str} (h : letterRun s = some (w, r)) :
    w ≠ [] ∧ (∀ c ∈ w, isAsciiLetter c = true) ∧ s = w ++ r := by
  cases s with
  | nil => simp [letterRun] at h
  | cons c0 r0 =>
    simp only [letterRun] at h
    split at h
    · rename_i hc
      simp only [Option.some.injEq, Prod.mk.injEq] at h
      obtain ⟨rfl, rfl⟩ := h
      refine ⟨by simp, ?_, ?_⟩
      · intro c hm
        rcases List.mem_cons.mp hm with rfl | hm
        · exact hc
        · exact List.mem_takeWhile_imp hm
      · simp [List.takeWhile_append_dropWhile]
    · simp at h

theorem txtTail_shape {dd s cap rest : Str}
    (hdd : 1 ≤ dd.length ∧ dd.length ≤ 2 ∧ ∀ c ∈ dd, c.isDigit = true)
    (h : txtTail dd s = some (cap, rest)) : textualShape cap := by
  unfold txtTail at h
  split at h
  · simp at h
  · rename_i w1 r1 hw1
    split at h
    · simp at h
    · rename_i ls r2 hls
      split at h
      · simp at h
      · rename_i w2 r3 hw2
        split at h
        · simp at h
        · rename_i yy r4 hyy
          simp only [Option.some.injEq, Prod.mk.injEq] at h
          obtain ⟨rfl, rfl⟩ := h
          obtain ⟨hw1a, hw1b, _⟩ := wsRun_spec hw1
          obtain ⟨hlsa, hlsb, _⟩ := letterRun_spec hls
          obtain ⟨hw2a, hw2b, _⟩ := wsRun_spec hw2
          exact ⟨dd, w1, ls, w2, yy, by simp, hdd, ⟨hw1a, hw1b⟩, ⟨hlsa, hlsb⟩,
            ⟨hw2a, hw2b⟩, digits14_spec hyy⟩

theorem captureDate_shape {s cap : Str} (h : captureDate s = some cap) :
    numericShape cap ∨ textualShape cap := by
  unfold captureDate at h
  split at h
  · simp at h
  · rename_i dd r hdd
    have hdds := digits12_spec hdd
    split at h
    · simp at h
    · rename_i cap0 rest0 htail
      simp only [Option.some.injEq] at h
      subst h
      rcases altO_eq_some htail with hn | ⟨_, ht⟩
      · exact Or.inl (numTail_shape hdds hn)
      · exact Or.inr (txtTail_shape hdds ht)

theorem expiryTail_shape {s cap : Str} (h : expiryTail s = some cap) :
    numericShape cap ∨ textualShape cap := by
  unfold expiryTail at h
  exact captureDate_shape h

theorem expiryDatePath_shape {s cap : Str} (h : expiryDatePath s = some cap) :
    numericShape cap ∨ textualShape cap := by
  unfold expiryDatePath at h
  split at h
  · simp at h
  · split at h
    · simp at h
    · exact expiryTail_shape h

theorem expiryAtPos_shape {s cap : Str} (h : expiryAtPos s = some cap) :
    numericShape cap ∨ textualShape cap := by
  unfold expiryAtPos at h
  split at h
  · simp at h
  · rcases altO_eq_some h with hp | ⟨_, ht⟩
    · exact expiryDatePath_shape hp
    · exact expiryTail_shape ht

theorem searchExpiry_shape {s cap : Str} (h : searchExpiry s = some cap) :
    numericShape cap ∨ textualShape cap := by
  induction s with
  | nil => simp [searchExpiry] at h
  | cons c rest ih =>
    unfold searchExpiry at h
    rcases altO_eq_some h with hp | ⟨_, ht⟩
    · exact expiryAtPos_shape hp
    · exact ih ht

/-- C5 counterexample: a numeric date whose year has exactly three digits IS
captured by the expiry pattern (its year part accepts 2 to 4 digits) and
stored in `expiry_date` — refuting "a numeric date whose year has exactly 3
digits is never stored". -/
theorem expiry_capture_three_digit_year :
    searchExpiry (str "Expiry: 01/01/202") = some (str "01/01/202") ∧
      (extract_job_details (some ⟨none, none, none, none, str "Expiry: 01/01/202"⟩)
        ExcAt.noExc).expiry_date = str "01/01/202" := by
  constructor <;> decide

/-- C5 (amended): a capture of the expiry-date search is either a numeric
date with 1-2 digit day, 1-2 digit month and a year of two, THREE, or four
digits, or a textual date (1-2 digit day, whitespace, a word of letters,
whitespace, 2-4 digit year); the label with optional "Date" word and
optional colon is matched case-insensitively; when no match exists the
expiry field keeps its `"N/A"` default. -/
theorem expiry_capture_shape :
    (∀ s cap : Str, searchExpiry s = some cap → numericShape cap ∨ textualShape cap) ∧
    (∀ p : DetailPage, searchExpiry p.fullText = none →
      (extract_job_details (some p) ExcAt.noExc).expiry_date = naStr) ∧
    searchExpiry (str "Closing Date: 05-06-2024 more") = some (str "05-06-2024") ∧
    searchExpiry (str "due 5 May 2024 x") = some (str "5 May 2024") ∧
    searchExpiry (str "01/02/2024") = none := by
  refine ⟨fun s cap h => searchExpiry_shape h, ?_, by decide, by decide, by decide⟩
  intro p h
  show (setLoc p (setExpiry p (setDescription p (setCompany p
      defaultDetails)))).expiry_date = naStr
  rw [setLoc_expiry]
  unfold setExpiry
  rw [h]
  rw [setDescription_expiry, setCompany_expiry]
  rfl

theorem expiry_capture_shape_witness :
    numericShape (str "05-06-2024") ∨ textualShape (str "05-06-2024") :=
  expiry_capture_shape.1 (str "Closing Date: 05-06-2024 more") (str "05-06-2024")
    (by decide)

/-! ## C6 and C10: the date standardiser -/

theorem isDigit_toNat {c : Char} (h : c.isDigit = true) : 48 ≤ c.toNat ∧ c.toNat ≤ 57 := by
  simp only [Char.isDigit, ge_iff_le, Bool.and_eq_true, decide_eq_true_eq] at h
  obtain ⟨h1, h2⟩ := h
  constructor
  · exact h1
  · exact h2

theorem char_ne_of_toNat {c a : Char} (h : c.toNat ≠ a.toNat) : c ≠ a := by
  intro hEq
  exact h (by rw [hEq])

theorem digit_ne_dash {c : Char} (h : c.isDigit = true) : c ≠ '-' := by
  have hb := isDigit_toNat h
  refine char_ne_of_toNat ?_
  intro hEq
  rw [hEq] at hb
  simp at hb

theorem digit_ne_slash {c : Char} (h : c.isDigit = true) : c ≠ '/' := by
  have hb := isDigit_toNat h
  refine char_ne_of_toNat ?_
  intro hEq
  rw [hEq] at hb
  simp at hb

theorem digit_not_ws {c : Char} (h : c.isDigit = true) : c.isWhitespace = false := by
  have hb := isDigit_toNat h
  simp only [Char.isWhitespace, Bool.or_eq_false_iff, decide_eq_false_iff_not]
  refine ⟨⟨⟨?_, ?_⟩, ?_⟩, ?_⟩ <;>
    · refine char_ne_of_toNat ?_
      intro hEq
      rw [hEq] at hb
      simp at hb

theorem toLower_digit {c : Char} (h : c.isDigit = true) : Char.toLower c = c := by
  have hb := isDigit_toNat h
  unfold Char.toLower
  rw [if_neg]
  intro hc
  omega

theorem digit_toLower_ne {c a : Char} (hc : c.isDigit = true) (ha : 96 < a.toNat) :
    Char.toLower c ≠ a := by
  have hb := isDigit_toNat hc
  rw [toLower_digit hc]
  refine char_ne_of_toNat ?_
  omega

theorem matchChar_cons_neg {ch c : Char} {r : Str} (h : c ≠ ch) :
    matchChar ch (c :: r) = none := by
  simp [matchChar, h]

theorem matchChar_cons_pos (ch : Char) (r : Str) : matchChar ch (ch :: r) = some r := by
  simp [matchChar]

theorem skipWs1_cons_neg {c : Char} {r : Str} (h : c.isWhitespace = false) :
    skipWs1 (c :: r) = none := by
  simp [skipWs1, h]

theorem matchDay_two_digits {c1 c2 : Char} (r : Str) (h1 : c1.isDigit = true)
    (h2 : c2.isDigit = true) :
    matchDay (c1 :: c2 :: r) = none ∨
    (∃ v, matchDay (c1 :: c2 :: r) = some (v, r)) ∨
    (∃ v, matchDay (c1 :: c2 :: r) = some (v, c2 :: r)) := by
  simp only [matchDay]
  split_ifs <;> simp

theorem matchMonthNum_two_digits {c1 c2 : Char} (r : Str) (h1 : c1.isDigit = true)
    (h2 : c2.isDigit = true) :
    matchMonthNum (c1 :: c2 :: r) = none ∨
    (∃ v, matchMonthNum (c1 :: c2 :: r) = some (v, r)) ∨
    (∃ v, matchMonthNum (c1 :: c2 :: r) = some (v, c2 :: r)) := by
  simp only [matchMonthNum]
  split_ifs <;> simp

theorem digit_ne_sep {c sep : Char} (hc : c.isDigit = true) (hsep : sep = '-' ∨ sep = '/') :
    c ≠ sep := by
  rcases hsep with rfl | rfl
  · exact digit_ne_dash hc
  · exact digit_ne_slash hc

theorem strptimeDMYsep_2digit {sep : Char} (hsep : sep = '-' ∨ sep = '/')
    {d1 d2 s1 m1 m2 s2 y1 y2 : Char}
    (hd1 : d1.isDigit = true) (hd2 : d2.isDigit = true) (hm1 : m1.isDigit = true)
    (hm2 : m2.isDigit = true) :
    strptimeDMYsep sep [d1, d2, s1, m1, m2, s2, y1, y2] = none := by
  unfold strptimeDMYsep
  rcases matchDay_two_digits ([s1, m1, m2, s2, y1, y2]) hd1 hd2 with hmd | ⟨v, hmd⟩ | ⟨v, hmd⟩
  · simp [hmd]
  · by_cases hEq : s1 = sep
    · subst hEq
      rcases matchMonthNum_two_digits ([s2, y1, y2]) hm1 hm2 with hmm | ⟨w, hmm⟩ | ⟨w, hmm⟩
      · simp [hmd, matchChar_cons_pos, hmm]
      · by_cases hEq2 : s2 = s1
        · subst hEq2
          simp [hmd, matchChar_cons_pos, hmm, matchYear4]
        · simp [hmd, matchChar_cons_pos, hmm, matchChar_cons_neg hEq2]
      · simp [hmd, matchChar_cons_pos, hmm, matchChar_cons_neg (digit_ne_sep hm2 hsep)]
    · simp [hmd, matchChar_cons_neg hEq]
  · simp [hmd, matchChar_cons_neg (digit_ne_sep hd2 hsep)]

theorem matchCI_head_ne {n0 c : Char} {nrest r : Str} (h : Char.toLower c ≠ n0) :
    matchCI (n0 :: nrest) (c :: r) = none := by
  have hne : ¬(((c :: r).take (n0 :: nrest).length).map Char.toLower = n0 :: nrest) := by
    rw [List.length_cons, List.take_succ_cons, List.map_cons]
    intro hEq
    injection hEq with hh _
    exact h hh
  simp [matchCI, hne]
  exact fun hEq => absurd hEq h

theorem matchMonthByName_digit_head {c : Char} {r : Str} (hc : c.isDigit = true)
    (tbl : List (Str × Nat))
    (htbl : ∀ p ∈ tbl, ∃ n0 nrest, p.1 = n0 :: nrest ∧ 96 < n0.toNat) :
    matchMonthByName tbl (c :: r) = none := by
  induction tbl with
  | nil => rfl
  | cons p rest ih =>
    obtain ⟨n0, nrest, hp, hn⟩ := htbl p (List.mem_cons_self _ _)
    obtain ⟨nm, v⟩ := p
    simp only at hp
    subst hp
    simp only [matchMonthByName, matchCI_head_ne (digit_toLower_ne hc hn)]
    exact ih fun q hq => htbl q (List.mem_cons_of_mem _ hq)

theorem monthFull_heads :
    ∀ p ∈ monthFull, ∃ n0 nrest, p.1 = n0 :: nrest ∧ 96 < n0.toNat := by
  intro p hp
  fin_cases hp <;> exact ⟨_, _, rfl, by decide⟩

theorem monthAbbr_heads :
    ∀ p ∈ monthAbbr, ∃ n0 nrest, p.1 = n0 :: nrest ∧ 96 < n0.toNat := by
  intro p hp
  fin_cases hp <;> exact ⟨_, _, rfl, by decide⟩

theorem strptimeYMDdash_2digit {d1 d2 s1 m1 m2 s2 y1 y2 : Char}
    (hs1 : s1 = '/' ∨ s1 = '-') :
    strptimeYMDdash [d1, d2, s1, m1, m2, s2, y1, y2] = none := by
  have h : s1.isDigit = false := by rcases hs1 with rfl | rfl <;> decide
  unfold strptimeYMDdash
  simp [matchYear4, h]

theorem strptimeMonDY_2digit {d1 : Char} {r : Str} (hd1 : d1.isDigit = true) :
    strptimeMonDY (d1 :: r) = none := by
  unfold strptimeMonDY
  simp [matchMonthByName_digit_head hd1 monthFull monthFull_heads]

theorem strptimeDMonY_2digit (tbl : List (Str × Nat)) {d1 d2 s1 : Char} {r : Str}
    (hd1 : d1.isDigit = true) (hd2 : d2.isDigit = true) (hs1 : s1 = '/' ∨ s1 = '-') :
    strptimeDMonY tbl (d1 :: d2 :: s1 :: r) = none := by
  have hws1 : s1.isWhitespace = false := by rcases hs1 with rfl | rfl <;> decide
  unfold strptimeDMonY
  rcases matchDay_two_digits (s1 :: r) hd1 hd2 with hmd | ⟨v, hmd⟩ | ⟨v, hmd⟩
  · simp [hmd]
  · simp [hmd, skipWs1_cons_neg hws1]
  · simp [hmd, skipWs1_cons_neg (digit_not_ws hd2)]

theorem range19_digit {c : Char} (h1 : '1' ≤ c) (h9 : c ≤ '9') : c.isDigit = true := by
  have n1 : 49 ≤ c.toNat := h1
  have n9 : c.toNat ≤ 57 := h9
  have n0 : 48 ≤ c.toNat := by omega
  simp only [Char.isDigit, ge_iff_le, Bool.and_eq_true, decide_eq_true_eq]
  exact ⟨n0, n9⟩

theorem sep_not_digit {s : Char} (hs : s = '/' ∨ s = '-') : s.isDigit = false := by
  rcases hs with rfl | rfl <;> decide

theorem sep_not_ws {s : Char} (hs : s = '/' ∨ s = '-') : s.isWhitespace = false := by
  rcases hs with rfl | rfl <;> decide

/-- A `%d` at a digit followed by a non-digit consumes exactly the one digit
(leaving the non-digit) or fails. -/
theorem matchDay_nondigit_snd {c1 c2 : Char} (r : Str) (h2 : c2.isDigit = false) :
    matchDay (c1 :: c2 :: r) = none ∨
      ∃ v, matchDay (c1 :: c2 :: r) = some (v, c2 :: r) := by
  simp only [matchDay]
  split_ifs with hA hB hC hD hE
  · rcases hA.2 with rfl | rfl <;> simp at h2
  · simp [hB.2] at h2
  · simp [range19_digit hC.2.1 hC.2.2] at h2
  · right; exact ⟨_, rfl⟩
  · simp [range19_digit hE.2.1 hE.2.2] at h2
  · left; rfl

/-- A `%m` at a digit followed by a non-digit consumes exactly the one digit
(leaving the non-digit) or fails. -/
theorem matchMonthNum_nondigit_snd {c1 c2 : Char} (r : Str) (h2 : c2.isDigit = false) :
    matchMonthNum (c1 :: c2 :: r) = none ∨
      ∃ v, matchMonthNum (c1 :: c2 :: r) = some (v, c2 :: r) := by
  simp only [matchMonthNum]
  split_ifs with hA hB hC
  · rcases hA.2 with rfl | rfl | rfl <;> simp at h2
  · simp [range19_digit hB.2.1 hB.2.2] at h2
  · right; exact ⟨_, rfl⟩
  · left; rfl

/-- The numeric formats fail on a 1-digit day, 1-digit month, 2-digit year
shape (the year has only two digits left where `%Y` demands four). -/
theorem strptimeDMYsep_1d1m {sep : Char} (hsep : sep = '-' ∨ sep = '/')
    {d1 s1 m1 s2 y1 y2 : Char}
    (hs1 : s1 = '/' ∨ s1 = '-') (hs2 : s2 = '/' ∨ s2 = '-') :
    strptimeDMYsep sep [d1, s1, m1, s2, y1, y2] = none := by
  unfold strptimeDMYsep
  rcases @matchDay_nondigit_snd d1 s1 [m1, s2, y1, y2] (sep_not_digit hs1) with hmd | ⟨v, hmd⟩
  · simp [hmd]
  · by_cases hEq : s1 = sep
    · subst hEq
      rcases @matchMonthNum_nondigit_snd m1 s2 [y1, y2] (sep_not_digit hs2) with hmm | ⟨w, hmm⟩
      · simp [hmd, matchChar_cons_pos, hmm]
      · by_cases hEq2 : s2 = s1
        · subst hEq2
          simp [hmd, matchChar_cons_pos, hmm, matchYear4]
        · simp [hmd, matchChar_cons_pos, hmm, matchChar_cons_neg hEq2]
    · simp [hmd, matchChar_cons_neg hEq]

/-- The numeric formats fail on a 1-digit day, 2-digit month, 2-digit year
shape. -/
theorem strptimeDMYsep_1d2m {sep : Char} (hsep : sep = '-' ∨ sep = '/')
    {d1 s1 m1 m2 s2 y1 y2 : Char}
    (hm1 : m1.isDigit = true) (hm2 : m2.isDigit = true)
    (hs1 : s1 = '/' ∨ s1 = '-') (hs2 : s2 = '/' ∨ s2 = '-') :
    strptimeDMYsep sep [d1, s1, m1, m2, s2, y1, y2] = none := by
  unfold strptimeDMYsep
  rcases @matchDay_nondigit_snd d1 s1 [m1, m2, s2, y1, y2] (sep_not_digit hs1) with hmd | ⟨v, hmd⟩
  · simp [hmd]
  · by_cases hEq : s1 = sep
    · subst hEq
      rcases matchMonthNum_two_digits ([s2, y1, y2]) hm1 hm2 with hmm | ⟨w, hmm⟩ | ⟨w, hmm⟩
      · simp [hmd, matchChar_cons_pos, hmm]
      · by_cases hEq2 : s2 = s1
        · subst hEq2
          simp [hmd, matchChar_cons_pos, hmm, matchYear4]
        · simp [hmd, matchChar_cons_pos, hmm, matchChar_cons_neg hEq2]
      · simp [hmd, matchChar_cons_pos, hmm, matchChar_cons_neg (digit_ne_sep hm2 hsep)]
    · simp [hmd, matchChar_cons_neg hEq]

/-- The numeric formats fail on a 2-digit day, 1-digit month, 2-digit year
shape. -/
theorem strptimeDMYsep_2d1m {sep : Char} (hsep : sep = '-' ∨ sep = '/')
    {d1 d2 s1 m1 s2 y1 y2 : Char}
    (hd1 : d1.isDigit = true) (hd2 : d2.isDigit = true)
    (hs1 : s1 = '/' ∨ s1 = '-') (hs2 : s2 = '/' ∨ s2 = '-') :
    strptimeDMYsep sep [d1, d2, s1, m1, s2, y1, y2] = none := by
  unfold strptimeDMYsep
  rcases matchDay_two_digits ([s1, m1, s2, y1, y2]) hd1 hd2 with hmd | ⟨v, hmd⟩ | ⟨v, hmd⟩
  · simp [hmd]
  · by_cases hEq : s1 = sep
    · subst hEq
      rcases @matchMonthNum_nondigit_snd m1 s2 [y1, y2] (sep_not_digit hs2) with hmm | ⟨w, hmm⟩
      · simp [hmd, matchChar_cons_pos, hmm]
      · by_cases hEq2 : s2 = s1
        · subst hEq2
          simp [hmd, matchChar_cons_pos, hmm, matchYear4]
        · simp [hmd, matchChar_cons_pos, hmm, matchChar_cons_neg hEq2]
    · simp [hmd, matchChar_cons_neg hEq]
  · simp [hmd, matchChar_cons_neg (digit_ne_sep hd2 hsep)]

/-- `%Y-%m-%d` fails whenever a slash or dash sits second in the string:
`%Y` demands four digits up front. -/
theorem strptimeYMDdash_sep_at1 {s1 : Char} (a b c : Char) (r : Str)
    (hs1 : s1 = '/' ∨ s1 = '-') :
    strptimeYMDdash (a :: s1 :: b :: c :: r) = none := by
  have h : s1.isDigit = false := sep_not_digit hs1
  unfold strptimeYMDdash
  simp [matchYear4, h]

/-- `%Y-%m-%d` fails whenever a slash or dash sits third in the string. -/
theorem strptimeYMDdash_sep_at2 {s1 : Char} (a b c : Char) (r : Str)
    (hs1 : s1 = '/' ∨ s1 = '-') :
    strptimeYMDdash (a :: b :: s1 :: c :: r) = none := by
  have h : s1.isDigit = false := sep_not_digit hs1
  unfold strptimeYMDdash
  simp [matchYear4, h]

/-- The month-name formats fail when a slash or dash follows a 1-digit day
(the format's whitespace cannot match it). -/
theorem strptimeDMonY_1digit (tbl : List (Str × Nat)) {d1 s1 : Char} {r : Str}
    (hs1 : s1 = '/' ∨ s1 = '-') :
    strptimeDMonY tbl (d1 :: s1 :: r) = none := by
  unfold strptimeDMonY
  rcases @matchDay_nondigit_snd d1 s1 r (sep_not_digit hs1) with hmd | ⟨v, hmd⟩
  · simp [hmd]
  · simp [hmd, skipWs1_cons_neg (sep_not_ws hs1)]

/-- C10 counterexample: the string `"31/01/25"` (two-digit year) is not
parsed at all by the format list — no format produces a date (in particular
none with year 25) — and the standardiser returns it unchanged. -/
theorem two_digit_year_not_parsed :
    tryFormats (str "31/01/25") = none ∧
      standardize_date (str "31/01/25") = str "31/01/25" := by
  constructor <;> decide

/-- C10 (amended): every numeric-date-shape string — a 1-to-2-digit day, a
slash or dash, a 1-to-2-digit month, a slash or dash — whose year part has
exactly two digits fails every pattern of the standardiser (the year
directive demands exactly four digits), so the string is passed through
unchanged — nothing at all is parsed for these strings, so no year value
below 100 is ever stored and the output is never a rewritten `Y-M-D`
form. -/
theorem two_digit_year_passthrough (dd mm : Str) (s1 s2 y1 y2 : Char)
    (hddLen : 1 ≤ dd.length ∧ dd.length ≤ 2) (hddDig : ∀ c ∈ dd, c.isDigit = true)
    (hmmLen : 1 ≤ mm.length ∧ mm.length ≤ 2) (hmmDig : ∀ c ∈ mm, c.isDigit = true)
    (hy1 : y1.isDigit = true) (hy2 : y2.isDigit = true)
    (hs1 : s1 = '/' ∨ s1 = '-') (hs2 : s2 = '/' ∨ s2 = '-') :
    tryFormats (dd ++ s1 :: (mm ++ s2 :: [y1, y2])) = none ∧
      standardize_date (dd ++ s1 :: (mm ++ s2 :: [y1, y2])) =
        dd ++ s1 :: (mm ++ s2 :: [y1, y2]) := by
  have hnone : tryFormats (dd ++ s1 :: (mm ++ s2 :: [y1, y2])) = none := by
    rcases dd with _ | ⟨d1, dd2⟩
    · exact absurd hddLen.1 (by simp)
    rcases mm with _ | ⟨m1, mm2⟩
    · exact absurd hmmLen.1 (by simp)
    have hd1 : d1.isDigit = true := hddDig d1 (by simp)
    have hm1 : m1.isDigit = true := hmmDig m1 (by simp)
    rcases dd2 with _ | ⟨d2, dd3⟩
    · rcases mm2 with _ | ⟨m2, mm3⟩
      · simp only [List.cons_append, List.nil_append]
        unfold tryFormats
        rw [strptimeDMYsep_1d1m (Or.inl rfl) hs1 hs2,
          strptimeDMYsep_1d1m (Or.inr rfl) hs1 hs2,
          strptimeYMDdash_sep_at1 d1 m1 s2 [y1, y2] hs1,
          strptimeMonDY_2digit hd1,
          strptimeDMonY_1digit monthFull hs1, strptimeDMonY_1digit monthAbbr hs1]
        rfl
      rcases mm3 with _ | ⟨m3, mm4⟩
      · have hm2 : m2.isDigit = true := hmmDig m2 (by simp)
        simp only [List.cons_append, List.nil_append]
        unfold tryFormats
        rw [strptimeDMYsep_1d2m (Or.inl rfl) hm1 hm2 hs1 hs2,
          strptimeDMYsep_1d2m (Or.inr rfl) hm1 hm2 hs1 hs2,
          strptimeYMDdash_sep_at1 d1 m1 m2 (s2 :: [y1, y2]) hs1,
          strptimeMonDY_2digit hd1,
          strptimeDMonY_1digit monthFull hs1, strptimeDMonY_1digit monthAbbr hs1]
        rfl
      · exact absurd hmmLen.2 (by simp only [List.length_cons]; omega)
    rcases dd3 with _ | ⟨d3, dd4⟩
    · have hd2 : d2.isDigit = true := hddDig d2 (by simp)
      rcases mm2 with _ | ⟨m2, mm3⟩
      · simp only [List.cons_append, List.nil_append]
        unfold tryFormats
        rw [strptimeDMYsep_2d1m (Or.inl rfl) hd1 hd2 hs1 hs2,
          strptimeDMYsep_2d1m (Or.inr rfl) hd1 hd2 hs1 hs2,
          strptimeYMDdash_sep_at2 d1 d2 m1 (s2 :: [y1, y2]) hs1,
          strptimeMonDY_2digit hd1,
          strptimeDMonY_2digit monthFull hd1 hd2 hs1,
          strptimeDMonY_2digit monthAbbr hd1 hd2 hs1]
        rfl
      rcases mm3 with _ | ⟨m3, mm4⟩
      · have hm2 : m2.isDigit = true := hmmDig m2 (by simp)
        simp only [List.cons_append, List.nil_append]
        unfold tryFormats
        rw [strptimeDMYsep_2digit (Or.inl rfl) hd1 hd2 hm1 hm2,
          strptimeDMYsep_2digit (Or.inr rfl) hd1 hd2 hm1 hm2,
          strptimeYMDdash_2digit hs1,
          strptimeMonDY_2digit hd1,
          strptimeDMonY_2digit monthFull hd1 hd2 hs1,
          strptimeDMonY_2digit monthAbbr hd1 hd2 hs1]
        rfl
      · exact absurd hmmLen.2 (by simp only [List.length_cons]; omega)
    · exact absurd hddLen.2 (by simp only [List.length_cons]; omega)
  refine ⟨hnone, ?_⟩
  unfold standardize_date
  split
  · rfl
  · rw [hnone]

theorem two_digit_year_passthrough_witness :
    (tryFormats (['3', '1'] ++ '/' :: (['0', '1'] ++ '/' :: ['2', '5'])) = none ∧
        standardize_date (['3', '1'] ++ '/' :: (['0', '1'] ++ '/' :: ['2', '5'])) =
          ['3', '1'] ++ '/' :: (['0', '1'] ++ '/' :: ['2', '5'])) ∧
      (tryFormats (['9'] ++ '/' :: (['9'] ++ '/' :: ['2', '5'])) = none ∧
        standardize_date (['9'] ++ '/' :: (['9'] ++ '/' :: ['2', '5'])) =
          ['9'] ++ '/' :: (['9'] ++ '/' :: ['2', '5'])) :=
  ⟨two_digit_year_passthrough ['3', '1'] ['0', '1'] '/' '/' '2' '5' (by decide) (by decide)
      (by decide) (by decide) (by decide) (by decide) (Or.inl rfl) (Or.inl rfl),
    two_digit_year_passthrough ['9'] ['9'] '/' '/' '2' '5' (by decide) (by decide)
      (by decide) (by decide) (by decide) (by decide) (Or.inl rfl) (Or.inl rfl)⟩

/-- C6: `standardize_date` tries the ordered format list (D-M-Y, D/M/Y,
Y-M-D, "Month D, Y", "D Month Y", "D Mon Y"); the first successful parse is
reformatted to zero-padded Y-M-D and a string no format parses (including
the `"N/A"` sentinel) is returned unchanged; in particular
"25 December 2024" becomes "2024-12-25", "31/01/2025" becomes "2025-01-31"
and "N/A" stays "N/A". -/
theorem standardize_date_spec :
    (∀ s : Str, tryFormats s = none → standardize_date s = s) ∧
    (∀ (s : Str) (d : Date), tryFormats s = some d → standardize_date s = formatYMD d) ∧
    standardize_date (str "25 December 2024") = str "2024-12-25" ∧
    standardize_date (str "31/01/2025") = str "2025-01-31" ∧
    standardize_date (str "N/A") = str "N/A" := by
  refine ⟨?_, ?_, by decide, by decide, by decide⟩
  · intro s h
    unfold standardize_date
    split
    · rfl
    · rw [h]
  · intro s d h
    have hna : s ≠ naStr := by
      rintro rfl
      rw [show tryFormats naStr = none from by decide] at h
      cases h
    unfold standardize_date
    rw [if_neg hna, h]

theorem standardize_date_spec_witness :
    standardize_date (str "31/01/2025") = formatYMD ⟨2025, 1, 31⟩ :=
  standardize_date_spec.2.1 (str "31/01/2025") ⟨2025, 1, 31⟩ (by decide)

/-! ## Lemmas about the embedded data frame -/

theorem keepFirsts_key_not_seen {α β : Type} [DecidableEq β] {f : α → β} {xs : List α}
    {seen : List β} {y : α} (h : y ∈ keepFirsts f xs seen) : f y ∉ seen := by
  induction xs generalizing seen with
  | nil => simp [keepFirsts] at h
  | cons x rest ih =>
    simp only [keepFirsts] at h
    split at h
    · exact ih h
    · rename_i hx
      rcases List.mem_cons.mp h with rfl | hm
      · exact hx
      · have := ih hm
        intro hs
        exact this (List.mem_cons_of_mem _ hs)

theorem keepFirsts_map_nodup {α β : Type} [DecidableEq β] (f : α → β) (xs : List α)
    (seen : List β) : ((keepFirsts f xs seen).map f).Nodup := by
  induction xs generalizing seen with
  | nil => simp [keepFirsts]
  | cons x rest ih =>
    simp only [keepFirsts]
    split
    · exact ih _
    · simp only [List.map_cons, List.nodup_cons]
      refine ⟨fun hmem => ?_, ih _⟩
      obtain ⟨y, hy, hEq⟩ := List.mem_map.mp hmem
      have := keepFirsts_key_not_seen hy
      exact this (by rw [hEq]; exact List.mem_cons_self _ _)

theorem keepFirsts_mem {α β : Type} [DecidableEq β] {f : α → β} {xs : List α}
    {seen : List β} {y : α} (h : y ∈ keepFirsts f xs seen) : y ∈ xs := by
  induction xs generalizing seen with
  | nil => simp [keepFirsts] at h
  | cons x rest ih =>
    simp only [keepFirsts] at h
    split at h
    · exact List.mem_cons_of_mem _ (ih h)
    · rcases List.mem_cons.mp h with rfl | hm
      · exact List.mem_cons_self _ _
      · exact List.mem_cons_of_mem _ (ih hm)

theorem keepFirsts_id_of_nodup {α β : Type} [DecidableEq β] {f : α → β} {xs : List α}
    {seen : List β} (hnd : (xs.map f).Nodup) (hdisj : ∀ x ∈ xs, f x ∉ seen) :
    keepFirsts f xs seen = xs := by
  induction xs generalizing seen with
  | nil => rfl
  | cons x rest ih =>
    simp only [keepFirsts]
    rw [if_neg (hdisj x (List.mem_cons_self _ _))]
    simp only [List.map_cons, List.nodup_cons] at hnd
    congr 1
    refine ih hnd.2 ?_
    intro y hy
    intro hmem
    rcases List.mem_cons.mp hmem with hEq | hs
    · exact hnd.1 (hEq ▸ List.mem_map_of_mem f hy)
    · exact hdisj y (List.mem_cons_of_mem _ hy) hs

theorem keepFirsts_congr_seen {α β : Type} [DecidableEq β] {f : α → β} (xs : List α)
    {s1 s2 : List β} (h : ∀ b, b ∈ s1 ↔ b ∈ s2) :
    keepFirsts f xs s1 = keepFirsts f xs s2 := by
  induction xs generalizing s1 s2 with
  | nil => rfl
  | cons x rest ih =>
    simp only [keepFirsts]
    by_cases hx : f x ∈ s1
    · rw [if_pos hx, if_pos ((h (f x)).mp hx)]
      exact ih h
    · rw [if_neg hx, if_neg (fun hc => hx ((h (f x)).mpr hc))]
      congr 1
      refine ih ?_
      intro b
      simp only [List.mem_cons]
      exact ⟨fun hb => hb.elim Or.inl (fun hb2 => Or.inr ((h b).mp hb2)),
        fun hb => hb.elim Or.inl (fun hb2 => Or.inr ((h b).mpr hb2))⟩

theorem keepFirsts_all_seen {α β : Type} [DecidableEq β] {f : α → β} {xs : List α}
    {seen : List β} (h : ∀ x ∈ xs, f x ∈ seen) : keepFirsts f xs seen = [] := by
  induction xs with
  | nil => rfl
  | cons x rest ih =>
    simp only [keepFirsts]
    rw [if_pos (h x (List.mem_cons_self _ _))]
    exact ih fun y hy => h y (List.mem_cons_of_mem _ hy)

theorem keepFirsts_append {α β : Type} [DecidableEq β] (f : α → β) (xs ys : List α)
    (seen : List β) :
    keepFirsts f (xs ++ ys) seen =
      keepFirsts f xs seen ++ keepFirsts f ys (xs.map f ++ seen) := by
  induction xs generalizing seen with
  | nil => simp [keepFirsts]
  | cons x rest ih =>
    simp only [List.cons_append, keepFirsts, List.append_eq]
    by_cases hx : f x ∈ seen
    · rw [if_pos hx, if_pos hx, ih]
      congr 1
      apply keepFirsts_congr_seen
      intro b
      by_cases hb : b = f x
      · subst hb
        simp only [List.map_cons, List.mem_cons, List.mem_append]
        tauto
      · simp only [List.map_cons, List.mem_cons, List.mem_append]
        tauto
    · rw [if_neg hx, if_neg hx, ih]
      simp only [List.cons_append]
      congr 1
      congr 1
      apply keepFirsts_congr_seen
      intro b
      simp only [List.map_cons, List.mem_cons, List.mem_append]
      tauto

theorem keepFirsts_ne_nil {α β : Type} [DecidableEq β] (f : α → β) {xs : List α}
    (h : xs ≠ []) : keepFirsts f xs [] ≠ [] := by
  cases xs with
  | nil => exact absurd rfl h
  | cons x rest =>
    simp [keepFirsts]

theorem rowCell_map {cols : List String} {g : String → Cell} {c : String} (h : c ∈ cols) :
    rowCell cols (cols.map g) c = g c := by
  induction cols with
  | nil => simp at h
  | cons c0 rest ih =>
    simp only [List.map_cons, rowCell]
    by_cases hEq : c0 = c
    · rw [if_pos hEq, hEq]
    · rw [if_neg hEq]
      refine ih ?_
      rcases List.mem_cons.mp h with rfl | hm
      · exact absurd rfl hEq
      · exact hm

theorem rowCell_not_mem {cols : List String} {row : List Cell} {c : String}
    (h : c ∉ cols) : rowCell cols row c = none := by
  induction cols generalizing row with
  | nil => cases row <;> rfl
  | cons c0 rest ih =>
    cases row with
    | nil => rfl
    | cons v vs =>
      simp only [rowCell]
      rw [if_neg fun hEq => h (List.mem_cons.mpr (Or.inl hEq.symm))]
      exact ih fun hm => h (List.mem_cons_of_mem _ hm)

theorem rowCell_append {cols : List String} {row : List Cell} (ext : List String)
    (vals : List Cell) {c : String} (hlen : row.length = cols.length) :
    rowCell (cols ++ ext) (row ++ vals) c =
      if c ∈ cols then rowCell cols row c else rowCell ext vals c := by
  induction cols generalizing row with
  | nil =>
    cases row with
    | nil => simp [rowCell]
    | cons v vs => simp at hlen
  | cons c0 rest ih =>
    cases row with
    | nil => simp at hlen
    | cons v vs =>
      simp only [List.cons_append, rowCell, List.append_eq]
      by_cases hEq : c0 = c
      · subst hEq
        simp [rowCell]
      · rw [if_neg hEq, ih (by simpa using hlen)]
        by_cases hm : c ∈ rest
        · rw [if_pos hm, if_pos (List.mem_cons_of_mem _ hm), if_neg hEq]
        · have hnotin : c ∉ c0 :: rest := by
            intro hc
            rcases List.mem_cons.mp hc with rfl | hc2
            · exact hEq rfl
            · exact hm hc2
          rw [if_neg hm, if_neg hnotin]

theorem setColCells_length {cols : List String} {row : List Cell} {k : String}
    {f : Cell → Cell} (hlen : row.length = cols.length) :
    (setColCells cols k f row).length = cols.length := by
  simp [setColCells, List.length_zipWith, hlen]

theorem rowCell_cons (c0 : String) (cols : List String) (v : Cell) (row : List Cell)
    (c : String) :
    rowCell (c0 :: cols) (v :: row) c = if c0 = c then v else rowCell cols row c := rfl

theorem setColCells_cons (c0 : String) (cols : List String) (k : String) (f : Cell → Cell)
    (v : Cell) (row : List Cell) :
    setColCells (c0 :: cols) k f (v :: row) =
      (if c0 = k then f v else v) :: setColCells cols k f row := rfl

theorem rowCell_setColCells {cols : List String} {row : List Cell} {k : String}
    {f : Cell → Cell} {c : String} (hlen : row.length = cols.length) :
    rowCell cols (setColCells cols k f row) c =
      if c = k ∧ c ∈ cols then f (rowCell cols row c) else rowCell cols row c := by
  induction cols generalizing row with
  | nil =>
    cases row with
    | nil => simp [setColCells, rowCell]
    | cons v vs => simp at hlen
  | cons c0 rest ih =>
    cases row with
    | nil => simp at hlen
    | cons v vs =>
      have hrec := @ih vs (by simpa using hlen)
      rw [setColCells_cons, rowCell_cons, rowCell_cons, hrec]
      by_cases hc0 : c0 = c
      · subst hc0
        simp only [if_pos rfl]
        by_cases hk : c0 = k
        · simp [hk]
        · simp [hk]
      · rw [if_neg hc0, if_neg hc0]
        by_cases hck : c = k ∧ c ∈ rest
        · rw [if_pos hck, if_pos ⟨hck.1, List.mem_cons_of_mem _ hck.2⟩]
        · rw [if_neg hck, if_neg fun hand => hck ⟨hand.1, by
            rcases List.mem_cons.mp hand.2 with rfl | hm
            · exact absurd rfl hc0
            · exact hm⟩]

theorem setColCells_map (cols : List String) (k : String) (f : Cell → Cell)
    (g : String → Cell) :
    setColCells cols k f (cols.map g) =
      cols.map fun c => if c = k then f (g c) else g c := by
  induction cols with
  | nil => rfl
  | cons c0 rest ih =>
    simp only [List.map_cons, setColCells, List.zipWith_cons_cons]
    exact congrArg (fun l => (if c0 = k then f (g c0) else g c0) :: l) ih

theorem map_lookupKey_zip {keys : List String} {row : List Cell}
    (hnd : keys.Nodup) (hlen : row.length = keys.length) :
    keys.map (lookupKey (keys.zip row)) = row := by
  induction keys generalizing row with
  | nil =>
    cases row with
    | nil => rfl
    | cons v vs => simp at hlen
  | cons k ks ih =>
    cases row with
    | nil => simp at hlen
    | cons v vs =>
      simp only [List.zip_cons_cons, List.map_cons, lookupKey, if_pos rfl]
      congr 1
      simp only [List.nodup_cons] at hnd
      calc List.map (fun c => if k = c then v else
              lookupKey (List.zipWith Prod.mk ks vs) c) ks
          = List.map (lookupKey (ks.zip vs)) ks := by
            refine List.map_congr_left ?_
            intro c hc
            rw [if_neg fun hEq : k = c => hnd.1 (hEq ▸ hc)]
            rfl
        _ = vs := ih hnd.2 (by simpa using hlen)

theorem recordColumns_nodup (recs : List JobRec) : (recordColumns recs).Nodup := by
  have h := keepFirsts_map_nodup (id : String → String) (allKeys recs) []
  simpa using h

theorem allKeys_mem {recs : List JobRec} {x : String} (h : x ∈ allKeys recs) :
    ∃ r ∈ recs, x ∈ r.map Prod.fst := by
  induction recs with
  | nil => simp [allKeys] at h
  | cons r rest ih =>
    simp only [allKeys, List.mem_append] at h
    rcases h with h | h
    · exact ⟨r, List.mem_cons_self _ _, h⟩
    · obtain ⟨r2, hr2, hx⟩ := ih h
      exact ⟨r2, List.mem_cons_of_mem _ hr2, hx⟩

theorem recordColumns_uniform {recs : List JobRec}
    (huni : ∀ r ∈ recs, r.map Prod.fst = canonicalCols) (hne : recs ≠ []) :
    recordColumns recs = canonicalCols := by
  cases recs with
  | nil => exact absurd rfl hne
  | cons r rest =>
    have hr : r.map Prod.fst = canonicalCols := huni r (List.mem_cons_self _ _)
    unfold recordColumns
    show keepFirsts id (allKeys (r :: rest)) [] = canonicalCols
    have : allKeys (r :: rest) = canonicalCols ++ allKeys rest := by
      simp [allKeys, hr]
    rw [this, keepFirsts_append]
    have h1 : keepFirsts id canonicalCols ([] : List String) = canonicalCols := by decide
    have h2 : keepFirsts id (allKeys rest) (canonicalCols.map id ++ []) = [] := by
      refine keepFirsts_all_seen ?_
      intro x hx
      obtain ⟨r2, hr2, hxr⟩ := allKeys_mem hx
      have := huni r2 (List.mem_cons_of_mem _ hr2)
      simp only [List.map_id, List.append_nil, id]
      rw [← this]
      exact hxr
    rw [h1, h2, List.append_nil]

theorem mem_newCols {cs hv : List String} {k : String} (hk : k ∈ cs) (hnk : k ∉ hv) :
    k ∈ newCols cs hv := by
  induction cs generalizing hv with
  | nil => simp at hk
  | cons c rest ih =>
    simp only [newCols]
    rcases List.mem_cons.mp hk with rfl | hm
    · rw [if_neg hnk]
      exact List.mem_cons_self _ _
    · by_cases hc : c ∈ hv
      · rw [if_pos hc]
        exact ih hm hnk
      · rw [if_neg hc]
        by_cases hkc : k = c
        · subst hkc
          exact List.mem_cons_self _ _
        · refine List.mem_cons_of_mem _ (ih hm ?_)
          intro hmem
          rcases List.mem_append.mp hmem with h1 | h2
          · exact hnk h1
          · simp only [List.mem_singleton] at h2
            exact hkc h2

theorem newCols_nil {cs hv : List String} (h : ∀ c ∈ cs, c ∈ hv) : newCols cs hv = [] := by
  induction cs generalizing hv with
  | nil => rfl
  | cons c rest ih =>
    simp only [newCols]
    rw [if_pos (h c (List.mem_cons_self _ _))]
    exact ih fun x hx => h x (List.mem_cons_of_mem _ hx)

theorem fillFold_spec (cs : List String) (df : DataFrame) :
    List.foldl (fun d c => if c ∈ d.columns then d else assignColumn d c (some naStr)) df cs =
      { columns := df.columns ++ newCols cs df.columns,
        rows := df.rows.map fun r => r ++ (newCols cs df.columns).map fun _ => some naStr } := by
  induction cs generalizing df with
  | nil =>
    simp only [List.foldl_nil, newCols, List.append_nil, List.map_nil]
    cases df with
    | mk cols rows =>
      simp
  | cons c rest ih =>
    simp only [List.foldl_cons, newCols]
    by_cases hc : c ∈ df.columns
    · rw [if_pos hc, if_pos hc, ih]
    · rw [if_neg hc, if_neg hc]
      have hassign : assignColumn df c (some naStr) =
          { columns := df.columns ++ [c],
            rows := df.rows.map fun r => r ++ [some naStr] } := by
        unfold assignColumn
        rw [if_neg hc]
      rw [hassign, ih]
      simp only [DataFrame.mk.injEq]
      constructor
      · simp [List.append_assoc]
      · simp only [List.map_map]
        refine List.map_congr_left ?_
        intro r _
        simp [List.append_assoc]

/-! ## C7: the normaliser and the canonical schema -/

theorem clean_data_eq (now : Str) (recs : List JobRec) (hne : recs ≠ [])
    (ht : "title" ∈ recordColumns recs) (he : "expiry_date" ∈ recordColumns recs) :
    clean_data now recs =
      some (projectCols
        (fillMissing
          (assignColumn
            (applyColumn
              { columns := recordColumns recs,
                rows := keepFirsts (titleCell (recordColumns recs))
                  (recs.map fun r => (recordColumns recs).map (lookupKey r)) [] }
              "expiry_date" cleanCell)
            "scraped_at" (some now)))
        canonicalCols) := by
  unfold clean_data
  rw [if_neg hne]
  simp only [mkDataFrame]
  rw [if_pos ht, if_pos he]


theorem fillMissing_spec (df : DataFrame) :
    fillMissing df =
      { columns := df.columns ++ newCols canonicalCols df.columns,
        rows := df.rows.map fun r =>
          r ++ (newCols canonicalCols df.columns).map fun _ => some naStr } := by
  unfold fillMissing
  exact fillFold_spec canonicalCols df

theorem normalize_frame_spec (now : Str) (cols0 : List String) (R0 : List (List Cell))
    (halign : ∀ row ∈ R0, row.length = cols0.length)
    (he : "expiry_date" ∈ cols0) :
    projectCols
        (fillMissing (assignColumn (applyColumn ⟨cols0, R0⟩ "expiry_date" cleanCell)
          "scraped_at" (some now))) canonicalCols =
      { columns := canonicalCols,
        rows := R0.map fun row => canonicalCols.map (finalCell now cols0 row) } := by
  by_cases hsa : "scraped_at" ∈ cols0
  · have happly : applyColumn ⟨cols0, R0⟩ "expiry_date" cleanCell =
        ⟨cols0, R0.map (setColCells cols0 "expiry_date" cleanCell)⟩ := rfl
    have hassign : assignColumn ⟨cols0, R0.map (setColCells cols0 "expiry_date" cleanCell)⟩
        "scraped_at" (some now) =
        ⟨cols0, (R0.map (setColCells cols0 "expiry_date" cleanCell)).map
          (setColCells cols0 "scraped_at" fun _ => some now)⟩ := by
      unfold assignColumn
      rw [if_pos hsa]
      rfl
    rw [happly, hassign, fillMissing_spec]
    simp only [projectCols, List.map_map, DataFrame.mk.injEq, true_and]
    refine List.map_congr_left ?_
    intro row hrow
    have hlen : row.length = cols0.length := halign row hrow
    have hlen2 : (setColCells cols0 "expiry_date" cleanCell row).length = cols0.length :=
      setColCells_length hlen
    have hlen3 : (setColCells cols0 "scraped_at" (fun _ => some now)
        (setColCells cols0 "expiry_date" cleanCell row)).length = cols0.length :=
      setColCells_length hlen2
    simp only [Function.comp]
    refine List.map_congr_left ?_
    intro c hc
    rw [rowCell_append _ _ hlen3]
    unfold finalCell
    by_cases hc0 : c ∈ cols0
    · rw [if_pos hc0, rowCell_setColCells hlen2, rowCell_setColCells hlen]
      by_cases hcsa : c = "scraped_at"
      · rw [if_pos ⟨hcsa, hc0⟩, if_pos hcsa]
      · rw [if_neg fun hand => hcsa hand.1, if_neg hcsa]
        by_cases hced : c = "expiry_date"
        · rw [if_pos ⟨hced, hc0⟩, if_pos hced]
        · rw [if_neg fun hand => hced hand.1, if_neg hced, if_pos hc0]
    · have hcsa : c ≠ "scraped_at" := fun hEq => hc0 (hEq ▸ hsa)
      have hced : c ≠ "expiry_date" := fun hEq => hc0 (hEq ▸ he)
      rw [if_neg hc0, if_neg hcsa, if_neg hced, if_neg hc0]
      exact rowCell_map (mem_newCols hc hc0)
  · have happly : applyColumn ⟨cols0, R0⟩ "expiry_date" cleanCell =
        ⟨cols0, R0.map (setColCells cols0 "expiry_date" cleanCell)⟩ := rfl
    have hassign : assignColumn ⟨cols0, R0.map (setColCells cols0 "expiry_date" cleanCell)⟩
        "scraped_at" (some now) =
        ⟨cols0 ++ ["scraped_at"], (R0.map (setColCells cols0 "expiry_date" cleanCell)).map
          (· ++ [some now])⟩ := by
      unfold assignColumn
      rw [if_neg hsa]
    rw [happly, hassign, fillMissing_spec]
    simp only [projectCols, List.map_map, DataFrame.mk.injEq, true_and]
    refine List.map_congr_left ?_
    intro row hrow
    have hlen : row.length = cols0.length := halign row hrow
    have hlen2 : (setColCells cols0 "expiry_date" cleanCell row).length = cols0.length :=
      setColCells_length hlen
    have hlen3 : (setColCells cols0 "expiry_date" cleanCell row ++ [some now]).length =
        (cols0 ++ ["scraped_at"]).length := by
      simp [hlen2]
    simp only [Function.comp]
    refine List.map_congr_left ?_
    intro c hc
    rw [rowCell_append _ _ hlen3]
    unfold finalCell
    by_cases hc3 : c ∈ cols0 ++ ["scraped_at"]
    · rw [if_pos hc3, rowCell_append _ _ hlen2]
      by_cases hc0 : c ∈ cols0
      · have hcsa : c ≠ "scraped_at" := fun hEq => hsa (hEq ▸ hc0)
        rw [if_pos hc0, rowCell_setColCells hlen, if_neg hcsa]
        by_cases hced : c = "expiry_date"
        · rw [if_pos ⟨hced, hc0⟩, if_pos hced]
        · rw [if_neg fun hand => hced hand.1, if_neg hced, if_pos hc0]
      · have hcsa : c = "scraped_at" := by
          rcases List.mem_append.mp hc3 with h1 | h2
          · exact absurd h1 hc0
          · simpa using h2
        rw [if_neg hc0, if_pos hcsa]
        subst hcsa
        simp [rowCell]
    · have hcsa : c ≠ "scraped_at" :=
        fun hEq => hc3 (List.mem_append.mpr (Or.inr (by simp [hEq])))
      have hc0 : c ∉ cols0 := fun hm => hc3 (List.mem_append.mpr (Or.inl hm))
      have hced : c ≠ "expiry_date" := fun hEq => hc0 (hEq ▸ he)
      rw [if_neg hc3, if_neg hcsa, if_neg hced, if_neg hc0]
      exact rowCell_map (mem_newCols hc hc3)

theorem clean_data_char (now : Str) (recs : List JobRec) (hne : recs ≠ [])
    (ht : "title" ∈ recordColumns recs) (he : "expiry_date" ∈ recordColumns recs) :
    clean_data now recs =
      some { columns := canonicalCols,
             rows := (keepFirsts (titleCell (recordColumns recs))
                 (recs.map fun r => (recordColumns recs).map (lookupKey r)) []).map
               fun row => canonicalCols.map (finalCell now (recordColumns recs) row) } := by
  have halign : ∀ row ∈ keepFirsts (titleCell (recordColumns recs))
      (recs.map fun r => (recordColumns recs).map (lookupKey r)) [],
      row.length = (recordColumns recs).length := by
    intro row hrow
    obtain ⟨r, _, rfl⟩ := List.mem_map.mp (keepFirsts_mem hrow)
    simp
  rw [clean_data_eq now recs hne ht he,
    normalize_frame_spec now (recordColumns recs) _ halign he]

/-- C7 counterexample: a record list whose records lack a `title` key makes
`clean_data` raise (`drop_duplicates(subset=['title'])` raises `KeyError` on a
frame with no `title` column), so the normaliser is not total on every input
record list. -/
theorem clean_data_raises_without_title :
    clean_data (str "T") [[("company", some (str "Acme"))]] = none := by decide

/-- C7 (amended): an empty input yields the empty table; for every record
list that mentions the `title` and `expiry_date` keys (as every record built
by the scraping pipeline does) `clean_data` succeeds, every output row has
exactly the seven canonical columns in canonical order, and a canonical
column absent from the input records (other than the timestamp column)
holds `"N/A"` in every row.  On record lists lacking `title` or
`expiry_date` the pandas calls raise, so full totality fails. -/
theorem clean_data_canonical_columns :
    (∀ now : Str, clean_data now [] = some { columns := [], rows := [] }) ∧
    (∀ (now : Str) (recs : List JobRec),
      "title" ∈ recordColumns recs → "expiry_date" ∈ recordColumns recs →
      ∃ df, clean_data now recs = some df ∧ df.columns = canonicalCols ∧
        (∀ row ∈ df.rows, row.length = 7) ∧
        (∀ c ∈ canonicalCols, c ∉ recordColumns recs → c ≠ "scraped_at" →
          ∀ row ∈ df.rows, rowCell canonicalCols row c = some naStr)) := by
  constructor
  · intro now
    rfl
  · intro now recs ht he
    have hne : recs ≠ [] := by
      rintro rfl
      simp [recordColumns, allKeys, keepFirsts] at ht
    refine ⟨_, clean_data_char now recs hne ht he, rfl, ?_, ?_⟩
    · intro row hrow
      obtain ⟨row0, _, rfl⟩ := List.mem_map.mp hrow
      simp [canonicalCols]
    · intro c hc hnotin hcsa row hrow
      obtain ⟨row0, _, rfl⟩ := List.mem_map.mp hrow
      rw [rowCell_map hc]
      unfold finalCell
      have hced : c ≠ "expiry_date" := fun hEq => hnotin (hEq ▸ he)
      rw [if_neg hcsa, if_neg hced, if_neg hnotin]

theorem clean_data_canonical_columns_witness :
    ∃ df, clean_data (str "T")
        [[("title", some (str "Engineer")), ("expiry_date", some (str "N/A"))]] =
          some df ∧
      df.columns = canonicalCols ∧ (∀ row ∈ df.rows, row.length = 7) ∧
      (∀ c ∈ canonicalCols,
        c ∉ recordColumns
            [[("title", some (str "Engineer")), ("expiry_date", some (str "N/A"))]] →
        c ≠ "scraped_at" → ∀ row ∈ df.rows, rowCell canonicalCols row c = some naStr) :=
  clean_data_canonical_columns.2 (str "T")
    [[("title", some (str "Engineer")), ("expiry_date", some (str "N/A"))]]
    (by decide) (by decide)

/-! ## Idempotence of the date standardiser -/

theorem digitVal_le {c : Char} (h : c.isDigit = true) : digitVal c ≤ 9 := by
  have := isDigit_toNat h
  unfold digitVal
  omega

theorem isDigit_digitChar {n : Nat} (h : n ≤ 9) : (digitChar n).isDigit = true := by
  interval_cases n <;> decide

theorem matchYear4_bound {s : Str} {y : Nat} {r : Str} (h : matchYear4 s = some (y, r)) :
    y ≤ 9999 := by
  rcases s with _ | ⟨a, _ | ⟨b, _ | ⟨c, _ | ⟨d, t⟩⟩⟩⟩
  · simp [matchYear4] at h
  · simp [matchYear4] at h
  · simp [matchYear4] at h
  · simp [matchYear4] at h
  · simp only [matchYear4] at h
    split at h
    · rename_i hc
      simp only [Option.some.injEq, Prod.mk.injEq] at h
      obtain ⟨rfl, rfl⟩ := h.symm.imp Eq.symm Eq.symm
      have ha := digitVal_le hc.1
      have hb := digitVal_le hc.2.1
      have hcc := digitVal_le hc.2.2.1
      have hd := digitVal_le hc.2.2.2
      omega
    · simp at h

theorem mkDateIfValid_some {y m d : Nat} {rest : Str} {dt : Date}
    (h : mkDateIfValid y m d rest = some dt) :
    dt = ⟨y, m, d⟩ ∧ rest = [] ∧ validDate y m d = true := by
  unfold mkDateIfValid at h
  split at h
  · rename_i hc
    simp only [Option.some.injEq] at h
    exact ⟨h.symm, hc.1, hc.2⟩
  · simp at h

theorem strptimeDMYsep_sound {sep : Char} {s : Str} {dt : Date}
    (h : strptimeDMYsep sep s = some dt) :
    validDate dt.year dt.month dt.day = true ∧ dt.year ≤ 9999 := by
  unfold strptimeDMYsep at h
  split at h
  · simp at h
  rename_i d r1 hd
  split at h
  · simp at h
  rename_i r2 hc1
  split at h
  · simp at h
  rename_i m r3 hm
  split at h
  · simp at h
  rename_i r4 hc2
  split at h
  · simp at h
  rename_i y r5 hy
  obtain ⟨rfl, hrest, hval⟩ := mkDateIfValid_some h
  exact ⟨hval, matchYear4_bound hy⟩

theorem strptimeYMDdash_sound {s : Str} {dt : Date}
    (h : strptimeYMDdash s = some dt) :
    validDate dt.year dt.month dt.day = true ∧ dt.year ≤ 9999 := by
  unfold strptimeYMDdash at h
  split at h
  · simp at h
  rename_i y r1 hy
  split at h
  · simp at h
  rename_i r2 hc1
  split at h
  · simp at h
  rename_i m r3 hm
  split at h
  · simp at h
  rename_i r4 hc2
  split at h
  · simp at h
  rename_i d r5 hd
  obtain ⟨rfl, hrest, hval⟩ := mkDateIfValid_some h
  exact ⟨hval, matchYear4_bound hy⟩

theorem strptimeMonDY_sound {s : Str} {dt : Date}
    (h : strptimeMonDY s = some dt) :
    validDate dt.year dt.month dt.day = true ∧ dt.year ≤ 9999 := by
  unfold strptimeMonDY at h
  split at h
  · simp at h
  rename_i m r1 hm
  split at h
  · simp at h
  rename_i r2 hw1
  split at h
  · simp at h
  rename_i d r3 hd
  split at h
  · simp at h
  rename_i r4 hc
  split at h
  · simp at h
  rename_i r5 hw2
  split at h
  · simp at h
  rename_i y r6 hy
  obtain ⟨rfl, hrest, hval⟩ := mkDateIfValid_some h
  exact ⟨hval, matchYear4_bound hy⟩

theorem strptimeDMonY_sound {tbl : List (Str × Nat)} {s : Str} {dt : Date}
    (h : strptimeDMonY tbl s = some dt) :
    validDate dt.year dt.month dt.day = true ∧ dt.year ≤ 9999 := by
  unfold strptimeDMonY at h
  split at h
  · simp at h
  rename_i d r1 hd
  split at h
  · simp at h
  rename_i r2 hw1
  split at h
  · simp at h
  rename_i m r3 hm
  split at h
  · simp at h
  rename_i r4 hw2
  split at h
  · simp at h
  rename_i y r5 hy
  obtain ⟨rfl, hrest, hval⟩ := mkDateIfValid_some h
  exact ⟨hval, matchYear4_bound hy⟩

theorem tryFormats_sound {s : Str} {dt : Date} (h : tryFormats s = some dt) :
    validDate dt.year dt.month dt.day = true ∧ dt.year ≤ 9999 := by
  unfold tryFormats at h
  rcases altO_eq_some h with h1 | ⟨_, h⟩
  · exact strptimeDMYsep_sound h1
  rcases altO_eq_some h with h1 | ⟨_, h⟩
  · exact strptimeDMYsep_sound h1
  rcases altO_eq_some h with h1 | ⟨_, h⟩
  · exact strptimeYMDdash_sound h1
  rcases altO_eq_some h with h1 | ⟨_, h⟩
  · exact strptimeMonDY_sound h1
  rcases altO_eq_some h with h1 | ⟨_, h⟩
  · exact strptimeDMonY_sound h1
  · exact strptimeDMonY_sound h

theorem digitVal_digitChar {n : Nat} (h : n ≤ 9) : digitVal (digitChar n) = n := by
  interval_cases n <;> decide

theorem matchYear4_pad4 {y : Nat} (h : y ≤ 9999) (r : Str) :
    matchYear4 (pad4 y ++ r) = some (y, r) := by
  have h1 : y / 1000 ≤ 9 := by omega
  have h2 : y / 100 % 10 ≤ 9 := by omega
  have h3 : y / 10 % 10 ≤ 9 := by omega
  have h4 : y % 10 ≤ 9 := by omega
  simp only [pad4, List.cons_append, List.nil_append, matchYear4]
  rw [if_pos ⟨isDigit_digitChar h1, isDigit_digitChar h2, isDigit_digitChar h3,
    isDigit_digitChar h4⟩]
  simp only [Option.some.injEq, Prod.mk.injEq, and_true]
  rw [digitVal_digitChar h1, digitVal_digitChar h2, digitVal_digitChar h3,
    digitVal_digitChar h4]
  omega

theorem matchDay_pad2 {d : Nat} (h1 : 1 ≤ d) (h31 : d ≤ 31) (r : Str) :
    matchDay (pad2 d ++ r) = some (d, r) := by
  interval_cases d <;> rfl

theorem matchMonthNum_pad2 {m : Nat} (h1 : 1 ≤ m) (h12 : m ≤ 12) (r : Str) :
    matchMonthNum (pad2 m ++ r) = some (m, r) := by
  interval_cases m <;> rfl

theorem daysInMonth_le (y m : Nat) : daysInMonth y m ≤ 31 := by
  unfold daysInMonth
  split_ifs <;> omega

theorem validDate_elim {y m d : Nat} (h : validDate y m d = true) :
    1 ≤ y ∧ 1 ≤ m ∧ m ≤ 12 ∧ 1 ≤ d ∧ d ≤ 31 := by
  simp only [validDate, decide_eq_true_eq] at h
  have := daysInMonth_le y m
  omega

theorem formatYMD_cons (dt : Date) :
    formatYMD dt = digitChar (dt.year / 1000) :: digitChar (dt.year / 100 % 10) ::
      digitChar (dt.year / 10 % 10) :: digitChar (dt.year % 10) :: '-' ::
      digitChar (dt.month / 10) :: digitChar (dt.month % 10) :: '-' ::
      digitChar (dt.day / 10) :: digitChar (dt.day % 10) :: [] := rfl

theorem strptimeDMYsep_formatYMD {sep : Char} (hsep : sep = '-' ∨ sep = '/') (dt : Date)
    (hy : dt.year ≤ 9999) : strptimeDMYsep sep (formatYMD dt) = none := by
  have h1 : (digitChar (dt.year / 1000)).isDigit = true := isDigit_digitChar (by omega)
  have h2 : (digitChar (dt.year / 100 % 10)).isDigit = true := isDigit_digitChar (by omega)
  have h3 : (digitChar (dt.year / 10 % 10)).isDigit = true := isDigit_digitChar (by omega)
  rw [formatYMD_cons]
  unfold strptimeDMYsep
  rcases matchDay_two_digits (digitChar (dt.year / 10 % 10) :: digitChar (dt.year % 10) ::
      '-' :: digitChar (dt.month / 10) :: digitChar (dt.month % 10) :: '-' ::
      digitChar (dt.day / 10) :: digitChar (dt.day % 10) :: []) h1 h2
    with hmd | ⟨v, hmd⟩ | ⟨v, hmd⟩
  · simp [hmd]
  · simp [hmd, matchChar_cons_neg (digit_ne_sep h3 hsep)]
  · simp [hmd, matchChar_cons_neg (digit_ne_sep h2 hsep)]

theorem strptimeYMDdash_formatYMD (dt : Date) (hy : dt.year ≤ 9999)
    (hv : validDate dt.year dt.month dt.day = true) :
    strptimeYMDdash (formatYMD dt) = some dt := by
  obtain ⟨hy1, hm1, hm12, hd1, hd31⟩ := validDate_elim hv
  unfold strptimeYMDdash
  have hY := matchYear4_pad4 hy ('-' :: (pad2 dt.month ++ '-' :: pad2 dt.day))
  have hM := matchMonthNum_pad2 hm1 hm12 ('-' :: pad2 dt.day)
  have hD := matchDay_pad2 hd1 hd31 ([] : Str)
  rw [List.append_nil] at hD
  rw [show formatYMD dt =
    pad4 dt.year ++ ('-' :: (pad2 dt.month ++ '-' :: pad2 dt.day)) from rfl]
  simp only [hY, matchChar_cons_pos, hM, hD]
  unfold mkDateIfValid
  rw [if_pos ⟨rfl, hv⟩]

theorem formatYMD_ne_na (dt : Date) : formatYMD dt ≠ naStr := by
  intro h
  have hlen := congrArg List.length h
  rw [formatYMD_cons] at hlen
  have h3 : naStr.length = 3 := by decide
  simp only [List.length_cons, List.length_nil, h3] at hlen
  omega

theorem tryFormats_formatYMD (dt : Date) (hy : dt.year ≤ 9999)
    (hv : validDate dt.year dt.month dt.day = true) :
    tryFormats (formatYMD dt) = some dt := by
  unfold tryFormats
  rw [strptimeDMYsep_formatYMD (Or.inl rfl) dt hy,
    strptimeDMYsep_formatYMD (Or.inr rfl) dt hy,
    strptimeYMDdash_formatYMD dt hy hv]
  rfl

theorem standardize_date_idem (s : Str) :
    standardize_date (standardize_date s) = standardize_date s := by
  by_cases hna : s = naStr
  · subst hna
    rfl
  · cases htf : tryFormats s with
    | none =>
      have h1 : standardize_date s = s := by
        unfold standardize_date
        rw [if_neg hna, htf]
      rw [h1]
      exact h1
    | some dt =>
      have h1 : standardize_date s = formatYMD dt := by
        unfold standardize_date
        rw [if_neg hna, htf]
      rw [h1]
      have hsound := tryFormats_sound htf
      unfold standardize_date
      rw [if_neg (formatYMD_ne_na dt), tryFormats_formatYMD dt hsound.2 hsound.1]

theorem cleanCell_idem (c : Cell) : cleanCell (cleanCell c) = cleanCell c := by
  cases c with
  | none => rfl
  | some s => simp [cleanCell, standardize_date_idem]

/-! ## C8: idempotence of the normaliser -/

theorem finalCell_sa (now : Str) (cols0 : List String) (row : List Cell) :
    finalCell now cols0 row "scraped_at" = some now := by
  unfold finalCell
  rw [if_pos rfl]

theorem finalCell_ed (now : Str) (cols0 : List String) (row : List Cell) :
    finalCell now cols0 row "expiry_date" =
      cleanCell (rowCell cols0 row "expiry_date") := by
  unfold finalCell
  rw [if_neg (by decide), if_pos rfl]

theorem finalCell_other (now : Str) (cols0 : List String) (row : List Cell) {c : String}
    (hcsa : c ≠ "scraped_at") (hced : c ≠ "expiry_date") (hc0 : c ∈ cols0) :
    finalCell now cols0 row c = rowCell cols0 row c := by
  unfold finalCell
  rw [if_neg hcsa, if_neg hced, if_pos hc0]

/-- C8: running the normaliser a second time on its own output succeeds and
changes neither the column list nor the row count; every cell other than the
`scraped_at` timestamp is unchanged (the second run's rows are exactly the
first run's rows with the `scraped_at` column overwritten). -/
theorem clean_data_idempotent :
    ∀ (now1 now2 : Str) (recs : List JobRec) (df1 : DataFrame),
      clean_data now1 recs = some df1 →
      ∃ df2, clean_data now2 df1.toRecords = some df2 ∧
        df2.columns = df1.columns ∧
        df2.rows.length = df1.rows.length ∧
        df2.rows = df1.rows.map
          (setColCells df1.columns "scraped_at" fun _ => some now2) := by
  intro now1 now2 recs df1 h
  by_cases hne : recs = []
  · subst hne
    have hdf : ({ columns := [], rows := [] } : DataFrame) = df1 := Option.some.inj h
    subst hdf
    exact ⟨{ columns := [], rows := [] }, rfl, rfl, rfl, rfl⟩
  · have hguards : "title" ∈ recordColumns recs ∧ "expiry_date" ∈ recordColumns recs := by
      have h2 := h
      unfold clean_data at h2
      rw [if_neg hne] at h2
      simp only [mkDataFrame] at h2
      split at h2
      · rename_i ht
        split at h2
        · rename_i he
          exact ⟨ht, he⟩
        · simp at h2
      · simp at h2
    obtain ⟨ht, he⟩ := hguards
    rw [clean_data_char now1 recs hne ht he] at h
    have hdf := Option.some.inj h
    subst hdf
    set cols0 := recordColumns recs with hcols0
    set R0 := keepFirsts (titleCell cols0) (recs.map fun r => cols0.map (lookupKey r)) []
      with hR0
    set rows1 := R0.map (fun row => canonicalCols.map (finalCell now1 cols0 row))
      with hrows1
    have halignR0 : ∀ row ∈ R0, row.length = cols0.length := by
      intro row hrow
      obtain ⟨r, _, rfl⟩ := List.mem_map.mp (keepFirsts_mem hrow)
      simp
    have hlen7 : ∀ row' ∈ rows1, row'.length = canonicalCols.length := by
      intro row' hrow'
      obtain ⟨row, _, rfl⟩ := List.mem_map.mp hrow'
      simp
    have hndc : canonicalCols.Nodup := by decide
    have hR0ne : R0 ≠ [] := by
      rw [hR0]
      refine keepFirsts_ne_nil _ ?_
      intro hmap
      exact hne (List.map_eq_nil.mp hmap)
    have hrows1ne : rows1 ≠ [] := by
      rw [hrows1]
      intro hmap
      exact hR0ne (List.map_eq_nil.mp hmap)
    have hrecs2ne : rows1.map (canonicalCols.zip ·) ≠ [] := by
      intro hmap
      exact hrows1ne (List.map_eq_nil.mp hmap)
    have huni : ∀ rec ∈ rows1.map (canonicalCols.zip ·), rec.map Prod.fst = canonicalCols := by
      intro rec hrec
      obtain ⟨row', hrow', rfl⟩ := List.mem_map.mp hrec
      exact List.map_fst_zip _ _ (le_of_eq (hlen7 row' hrow').symm)
    have hF3 : recordColumns (rows1.map (canonicalCols.zip ·)) = canonicalCols :=
      recordColumns_uniform huni hrecs2ne
    have hF5 : (rows1.map (canonicalCols.zip ·)).map
        (fun r => canonicalCols.map (lookupKey r)) = rows1 := by
      rw [List.map_map]
      have : ∀ row' ∈ rows1,
          canonicalCols.map (lookupKey (canonicalCols.zip row')) = row' := by
        intro row' hrow'
        exact map_lookupKey_zip hndc (hlen7 row' hrow')
      calc rows1.map (fun row' => canonicalCols.map (lookupKey (canonicalCols.zip row')))
          = rows1.map id := List.map_congr_left fun row' hrow' => this row' hrow'
        _ = rows1 := List.map_id rows1
    have htitle1 : ∀ row ∈ R0, titleCell canonicalCols
        (canonicalCols.map (finalCell now1 cols0 row)) = titleCell cols0 row := by
      intro row hrow
      show rowCell canonicalCols (canonicalCols.map (finalCell now1 cols0 row)) "title" = _
      rw [rowCell_map (by decide)]
      exact finalCell_other now1 cols0 row (by decide) (by decide) ht
    have hF6 : (rows1.map (titleCell canonicalCols)).Nodup := by
      rw [hrows1, List.map_map]
      have heq : R0.map (titleCell canonicalCols ∘
          fun row => canonicalCols.map (finalCell now1 cols0 row)) =
          R0.map (titleCell cols0) :=
        List.map_congr_left fun row hrow => htitle1 row hrow
      rw [heq]
      exact keepFirsts_map_nodup _ _ _
    have hF6id : keepFirsts (titleCell canonicalCols) rows1 [] = rows1 :=
      keepFirsts_id_of_nodup hF6 (by intro x _; simp)
    have ht2 : "title" ∈ recordColumns (rows1.map (canonicalCols.zip ·)) := by
      rw [hF3]; decide
    have he2 : "expiry_date" ∈ recordColumns (rows1.map (canonicalCols.zip ·)) := by
      rw [hF3]; decide
    have hchar2 := clean_data_char now2 (rows1.map (canonicalCols.zip ·)) hrecs2ne ht2 he2
    rw [hF3, hF5, hF6id] at hchar2
    refine ⟨_, hchar2, rfl, by simp, ?_⟩
    show rows1.map (fun row' => canonicalCols.map (finalCell now2 canonicalCols row')) =
      rows1.map (setColCells canonicalCols "scraped_at" fun _ => some now2)
    refine List.map_congr_left ?_
    intro row' hrow'
    obtain ⟨row, hrowR0, rfl⟩ := List.mem_map.mp hrow'
    rw [setColCells_map]
    refine List.map_congr_left ?_
    intro c hc
    by_cases hcsa : c = "scraped_at"
    · subst hcsa
      rw [if_pos rfl, finalCell_sa]
    · rw [if_neg hcsa]
      by_cases hced : c = "expiry_date"
      · subst hced
        rw [finalCell_ed, rowCell_map hc, finalCell_ed]
        exact cleanCell_idem _
      · rw [finalCell_other now2 canonicalCols _ hcsa hced hc, rowCell_map hc]

theorem clean_data_idempotent_witness :
    ∃ df2, clean_data (str "T2") wDF1.toRecords = some df2 ∧
      df2.columns = wDF1.columns ∧
      df2.rows.length = wDF1.rows.length ∧
      df2.rows = wDF1.rows.map
        (setColCells wDF1.columns "scraped_at" fun _ => some (str "T2")) :=
  clean_data_idempotent (str "T1") (str "T2") wRecs wDF1 (by decide)
